import Mathlib

/-!
# Canda web console: connection hub, TCP command reader and token-gated handlers

A shallow embedding of `cda-web` (`websocket.go`, `main.go`, `injector.go`,
`hwid.go`, `authentication.go`, `port.go`).

Modelling conventions.

* A `*Client` pointer is a natural number; the memory that the pointers refer to
  is a function from pointers to `Client` records.
* A Go channel `make(chan []byte, 256)` is its list of pending items plus a
  `closed` flag.  Sending on a closed channel and closing a closed channel panic;
  a blocking send on a full channel cannot proceed.  The three outcomes that stop
  the control loop are the constructors of `Fault`.
* Byte slices and Go strings are Lean strings (sequences of Unicode scalars).
* `range` over `manager.clients` visits the keys in an unspecified order; the keys
  are kept in a duplicate-free list and visited in list order.  Every statement
  below is quantified over all such lists, hence over every visiting order.
* The hub goroutine, the writer goroutines and the request handlers are
  interleaved at the granularity of one `select` iteration / one handler call.
* The Lua interpreter, JSON decoding, `pgrep`, `runtime.GOOS`, `crypto/rand`, the
  clock and the order in which `range` visits the feature map are parameters.
-/

namespace Canda

/-! ## Channels -/

/-- Address of a `Client` value (`*Client`). -/
abbrev ClientId := Nat

/-- Capacity of `Client.send`, from `make(chan []byte, 256)` in `HandleWebSocket`. -/
def sendCap : Nat := 256

/-- Buffered channel of byte slices: pending items, oldest first, and the closed flag. -/
structure Chan where
  buf : List String
  closed : Bool
deriving DecidableEq, Repr

/-- Ways in which a goroutine fails to complete a channel operation. -/
inductive Fault where
  | sendOnClosed
  | closeOfClosed
  | blocked
deriving DecidableEq, Repr

/-- Result of `make(chan []byte, 256)`. -/
def Chan.make : Chan := { buf := [], closed := false }

/-- Blocking send `ch <- v`. -/
def Chan.send (ch : Chan) (v : String) : Except Fault Chan :=
  if ch.closed then .error .sendOnClosed
  else if ch.buf.length < sendCap then .ok { ch with buf := ch.buf ++ [v] }
  else .error .blocked

/-- Non-blocking send `select { case ch <- v: ... default: ... }`; `none` is the
`default` branch. -/
def Chan.trySend (ch : Chan) (v : String) : Except Fault (Option Chan) :=
  if ch.closed then .error .sendOnClosed
  else if ch.buf.length < sendCap then .ok (some { ch with buf := ch.buf ++ [v] })
  else .ok none

/-- Built-in `close(ch)`; pending items stay receivable. -/
def Chan.close (ch : Chan) : Except Fault Chan :=
  if ch.closed then .error .closeOfClosed else .ok { ch with closed := true }

/-! ## Port manager (`port.go`) -/

structure PortManager where
  availablePorts : List Int
  currentPort : String
  status : String
deriving DecidableEq, Repr

def PortManager.GetCurrentPort (pm : PortManager) : String := pm.currentPort

/-! ## Client endpoints and the hub (`websocket.go`) -/

/-- One WebSocket message handed to the connection by `writePump`. -/
inductive Frame where
  /-- Text message: the items received from `client.send` for it, in order, and the
  bytes passed to the message writer, concatenated. -/
  | text (items : List String) (payload : String)
  /-- The `CloseMessage` written once `client.send` is closed and drained. -/
  | close
deriving DecidableEq, Repr

/-- Items of `client.send` carried by a frame. -/
def Frame.items : Frame → List String
  | .text items _ => items
  | .close => []

/-- The part of a `Client` that the hub and the writer act on. -/
structure Client where
  send : Chan
  /-- Frames written to `conn` by `writePump`, oldest first. -/
  wire : List Frame
  /-- Whether `writePump` has returned. -/
  writerDone : Bool
deriving DecidableEq, Repr

/-- The client built by `HandleWebSocket`: `send: make(chan []byte, 256)`, nothing written yet. -/
def Client.fresh : Client := { send := Chan.make, wire := [], writerDone := false }

/-- The hub: the keys of `manager.clients` and the memory holding every `Client`. -/
structure WebSocketManager where
  clients : List ClientId
  mem : ClientId → Client

/-- State built by `NewWebSocketManager`: `clients: make(map[*Client]bool)`; every client that
will ever be allocated is in its freshly constructed state. -/
def NewWebSocketManager : WebSocketManager := { clients := [], mem := fun _ => Client.fresh }

/-- Assignment through a client pointer. -/
def WebSocketManager.setSend (m : WebSocketManager) (c : ClientId) (ch : Chan) : WebSocketManager :=
  { m with mem := fun d => if d = c then { m.mem c with send := ch } else m.mem d }

/-- Map assignment `manager.clients[client] = true`. -/
def WebSocketManager.insertClient (m : WebSocketManager) (c : ClientId) : WebSocketManager :=
  { m with clients := if c ∈ m.clients then m.clients else m.clients ++ [c] }

/-- Map removal `delete(manager.clients, client)`. -/
def WebSocketManager.deleteClient (m : WebSocketManager) (c : ClientId) : WebSocketManager :=
  { m with clients := m.clients.filter (fun d => d ≠ c) }

def greeting : String := "[System] Connected to Canda executor"

def statusLine (port : String) : String := "[System] Connected on port: " ++ port

/-- The `case client := <-manager.register` branch of `run`.  `portManager` is the global
of `main.go`, `none` while it is nil. -/
def WebSocketManager.register (portManager : Option PortManager) (m : WebSocketManager)
    (c : ClientId) : Except Fault WebSocketManager := do
  let m := m.insertClient c
  let ch ← (m.mem c).send.send greeting
  let m := m.setSend c ch
  match portManager with
  | none => pure m
  | some pm =>
    let ch ← (m.mem c).send.send (statusLine pm.GetCurrentPort)
    pure (m.setSend c ch)

/-- The `case client := <-manager.unregister` branch of `run`. -/
def WebSocketManager.unregister (m : WebSocketManager) (c : ClientId) :
    Except Fault WebSocketManager :=
  if c ∈ m.clients then do
    let m := m.deleteClient c
    let ch ← (m.mem c).send.close
    pure (m.setSend c ch)
  else pure m

/-- Body of `for client := range manager.clients` for one client. -/
def WebSocketManager.deliver (message : String) (m : WebSocketManager) (c : ClientId) :
    Except Fault WebSocketManager := do
  match ← (m.mem c).send.trySend message with
  | some ch => pure (m.setSend c ch)
  | none =>
    let ch ← (m.mem c).send.close
    pure ((m.setSend c ch).deleteClient c)

/-- The `range` loop over the keys present when the loop starts. -/
def WebSocketManager.deliverAll (message : String) :
    List ClientId → WebSocketManager → Except Fault WebSocketManager
  | [], m => pure m
  | c :: cs, m => do
    let m ← m.deliver message c
    deliverAll message cs m

/-- The `case message := <-manager.broadcast` branch of `run`. -/
def WebSocketManager.broadcast (m : WebSocketManager) (message : String) :
    Except Fault WebSocketManager :=
  WebSocketManager.deliverAll message m.clients m

/-- The inner loop of `writePump`: `n` times write a line break and the next queued item. -/
def drain : Nat → Chan → List String → String → Chan × List String × String
  | 0, ch, items, payload => (ch, items, payload)
  | n + 1, ch, items, payload =>
    match ch.buf with
    | [] => (ch, items, payload)
    | x :: rest => drain n { ch with buf := rest } (items ++ [x]) (payload ++ "\n" ++ x)

/-- One pass through the `case message, ok := <-client.send` branch of `writePump`, with the
transport accepting the frame.  With nothing pending on an open channel the writer keeps
waiting; with nothing pending on a closed channel it writes the close message and returns. -/
def Client.writePump (cl : Client) : Client :=
  if cl.writerDone then cl
  else
    match cl.send.buf with
    | [] =>
      if cl.send.closed then { cl with wire := cl.wire ++ [Frame.close], writerDone := true }
      else cl
    | message :: rest =>
      let r := drain rest.length { cl.send with buf := rest } [message] message
      { cl with send := r.1, wire := cl.wire ++ [Frame.text r.2.1 r.2.2] }

/-- The three requests served by the control loop. -/
inductive HubOp where
  | register (c : ClientId)
  | unregister (c : ClientId)
  | broadcast (message : String)
deriving DecidableEq, Repr

/-- One scheduling step: an iteration of the hub's `select`, or an iteration of one client's
writer. -/
inductive Event where
  | hub (op : HubOp)
  | writePump (c : ClientId)
deriving DecidableEq, Repr

/-- One iteration of the `for { select { ... } }` loop of `run`. -/
def WebSocketManager.run (portManager : Option PortManager) (m : WebSocketManager) :
    HubOp → Except Fault WebSocketManager
  | .register c => m.register portManager c
  | .unregister c => m.unregister c
  | .broadcast message => m.broadcast message

def WebSocketManager.step (portManager : Option PortManager) (m : WebSocketManager) :
    Event → Except Fault WebSocketManager
  | .hub op => m.run portManager op
  | .writePump c => pure { m with mem := fun d => if d = c then (m.mem c).writePump else m.mem d }

def WebSocketManager.steps (portManager : Option PortManager) :
    WebSocketManager → List Event → Except Fault WebSocketManager
  | m, [] => pure m
  | m, e :: es => do
    let m ← m.step portManager e
    steps portManager m es

/-- Everything ever placed on a client's queue: what the writer has put on the wire, frame by
frame, followed by what is still pending. -/
def WebSocketManager.history (m : WebSocketManager) (c : ClientId) : List String :=
  ((m.mem c).wire.map Frame.items).flatten ++ (m.mem c).send.buf

/-- Items the writer has put on the wire, in transmission order. -/
def WebSocketManager.wireItems (m : WebSocketManager) (c : ClientId) : List String :=
  ((m.mem c).wire.map Frame.items).flatten

/-- Invariant of the control loop: the map has no duplicate key, every registered client has
an open queue, and no queue exceeds its capacity. -/
def WebSocketManager.WF (m : WebSocketManager) : Prop :=
  m.clients.Nodup ∧ (∀ c ∈ m.clients, (m.mem c).send.closed = false) ∧
    ∀ c, (m.mem c).send.buf.length ≤ sendCap

/-- Effect of one broadcast on a registered client with an open queue. -/
def Client.offer (message : String) (cl : Client) : Client :=
  if cl.send.buf.length < sendCap then
    { cl with send := { cl.send with buf := cl.send.buf ++ [message] } }
  else { cl with send := { cl.send with closed := true } }


/-- Handler `HandleWebSocket`: when the upgrade succeeds, the client is allocated at address `c` with a
new `send` channel and handed to the control loop, which serves it in its register branch;
when the upgrade fails nothing is created. -/
def WebSocketManager.HandleWebSocket (portManager : Option PortManager) (m : WebSocketManager)
    (upgraded : Bool) (c : ClientId) : Except Fault WebSocketManager :=
  if upgraded then
    WebSocketManager.run portManager
      { m with mem := fun d => if d = c then Client.fresh else m.mem d } (.register c)
  else pure m

/-- Lines that the register branch sends to a new client. -/
def registerLines : Option PortManager → List String
  | none => [greeting]
  | some pm => [greeting, statusLine pm.GetCurrentPort]

/-- A queue holding 256 pending lines. -/
def fullQueue : List String := List.replicate 256 "x"

/-- A client that never drained its queue until it filled up. -/
def stalledClient : Client :=
  { send := { buf := fullQueue, closed := false }, wire := [], writerDone := false }

/-- A hub with two registered clients: client `0` with nothing pending, client `1` with a full
queue. -/
def twoClientHub : WebSocketManager :=
  { clients := [0, 1], mem := fun c => if c = 1 then stalledClient else Client.fresh }

/-- Whether an event is a registration. -/
def Event.isRegister : Event → Bool
  | .hub (.register _) => true
  | _ => false

/-- The port manager as `main` leaves it once `FindAvailablePort` has picked the first port. -/
def mainPortManager : PortManager :=
  { availablePorts := [8080, 8081, 8082, 8083, 8084], currentPort := "8080",
    status := "connected" }

/-- Client `0` connects and 254 lines are broadcast while its writer never runs. -/
def stallEvents : List Event :=
  Event.hub (.register 0) :: List.replicate 254 (Event.hub (.broadcast "x"))

/-- Whether a run ends with the client registered and a given number of lines pending. -/
def endsWithPending (r : Except Fault WebSocketManager) (c : ClientId) (n : Nat) : Bool :=
  match r with
  | .ok m => decide (c ∈ m.clients) && ((m.mem c).send.buf.length == n)
  | .error _ => false

/-! ## Strings (`strings`, `unicode`) -/

/-- Predicate `unicode.IsSpace`: the Latin-1 cases spelled out in its source, then the `White_Space`
table. -/
def IsSpace (r : Char) : Bool :=
  let n := r.toNat
  if n ≤ 0xFF then
    r = '\t' || r = '\n' || n = 0x0B || n = 0x0C || r = '\r' || r = ' ' || n = 0x85 || n = 0xA0
  else
    n = 0x1680 || (0x2000 ≤ n && n ≤ 0x200A) || n = 0x2028 || n = 0x2029 || n = 0x202F ||
      n = 0x205F || n = 0x3000

/-- Function `strings.TrimSpace`: drop leading and trailing white space. -/
def TrimSpace (s : String) : String :=
  ⟨((s.data.dropWhile IsSpace).reverse.dropWhile IsSpace).reverse⟩

/-- Function `strings.HasPrefix`: whether `s` begins with `p`. -/
def HasPrefix (s p : String) : Bool := p.data.isPrefixOf s.data

/-- Function `strings.TrimPrefix`: `s` without the leading `p`, or `s` itself when it does not start
with `p`. -/
def TrimPrefix (s p : String) : String :=
  if HasPrefix s p then ⟨s.data.drop p.data.length⟩ else s

/-! ## Script execution and the TCP command reader (`main.go`) -/

/-- What a goroutine outside the hub does to the rest of the system. -/
inductive Effect where
  /-- A request put on one of the manager's channels. -/
  | hub (op : HubOp)
  /-- A `conn.Write` on the TCP connection being served. -/
  | connWrite (bytes : String)
  /-- A `conn.Close` on the TCP connection being served. -/
  | connClose
  /-- A call `L.DoString(script)` on a new Lua state. -/
  | luaRun (script : String)
deriving DecidableEq, Repr

/-- Method `wsManager.BroadcastMessage`: the message is put on `manager.broadcast`. -/
def BroadcastMessage (message : String) : Effect := .hub (.broadcast message)

/-- Observable behaviour of the Lua interpreter on one script: the arguments of the `print`
calls it made, in order, and the error of `DoString`, if any. -/
structure LuaRun where
  printed : List String
  err : Option String
deriving DecidableEq, Repr

/-- Function `executeLuaScript`: effects, then the returned `(string, error)` pair. -/
def executeLuaScript (lua : String → LuaRun) (script : String) :
    List Effect × String × Option String :=
  let r := lua script
  let effects := Effect.luaRun script :: r.printed.map BroadcastMessage
  match r.err with
  | some e => (effects, "", some e)
  | none => (effects, "Script executed successfully", none)

/-- Outcome of one `conn.Read`. -/
inductive ReadResult where
  | data (bytes : String)
  | eof
  | error (msg : String)
deriving DecidableEq, Repr

/-- Body of the read loop of `handleTCPConnection` after a successful `conn.Read`. -/
def tcpInput (lua : String → LuaRun) (bytes : String) : List Effect :=
  let data := TrimSpace bytes
  BroadcastMessage ("[TCP] " ++ data) ::
    if HasPrefix data "EXEC:" then
      let script := TrimPrefix data "EXEC:"
      let r := executeLuaScript lua script
      r.1 ++
        match r.2.2 with
        | some e => [Effect.connWrite ("Error: " ++ e ++ "\n"), BroadcastMessage ("[Error] " ++ e)]
        | none =>
          [Effect.connWrite ("Success: " ++ r.2.1 ++ "\n"),
            BroadcastMessage ("[Execution] " ++ r.2.1)]
    else [Effect.connWrite ("Echo: " ++ data ++ "\n")]

/-- The read loop of `handleTCPConnection` over the outcomes of its successive reads; when the
outcomes run out the handler is waiting in `conn.Read`. -/
def tcpLoop (lua : String → LuaRun) (clientAddr : String) : List ReadResult → List Effect
  | [] => []
  | .data bytes :: rest => tcpInput lua bytes ++ tcpLoop lua clientAddr rest
  | .eof :: _ =>
    [BroadcastMessage ("[System] TCP client disconnected: " ++ clientAddr), Effect.connClose]
  | .error msg :: _ => [BroadcastMessage ("[Error] TCP read error: " ++ msg), Effect.connClose]

/-- Function `handleTCPConnection` for the connection from `clientAddr`. -/
def handleTCPConnection (lua : String → LuaRun) (clientAddr : String)
    (reads : List ReadResult) : List Effect :=
  BroadcastMessage ("[System] TCP client connected: " ++ clientAddr) ::
    Effect.connWrite "Connected to Canda executor TCP server\n" :: tcpLoop lua clientAddr reads

/-- Requests that a goroutine put on the manager's channels, in order. -/
def hubOps : List Effect → List HubOp
  | [] => []
  | .hub op :: rest => op :: hubOps rest
  | _ :: rest => hubOps rest

/-- Scripts handed to the Lua interpreter, in order. -/
def luaRuns : List Effect → List String
  | [] => []
  | .luaRun script :: rest => script :: luaRuns rest
  | _ :: rest => luaRuns rest

/-- Bytes written to the TCP connection, in order. -/
def connWrites : List Effect → List String
  | [] => []
  | .connWrite bytes :: rest => bytes :: connWrites rest
  | _ :: rest => connWrites rest

/-- A Lua interpreter that prints nothing and rejects scripts starting with `!`. -/
def sampleLua (script : String) : LuaRun :=
  { printed := [], err := if HasPrefix script "!" then some "syntax error" else none }

/-! ## Session gate (`authentication.go`) -/

/-- Instants (`time.Time`) are natural numbers. -/
abbrev Time := Nat

structure User where
  Username : String
  Email : String
  PasswordHash : String
  CreatedAt : Time
  LastLogin : Time
deriving DecidableEq, Repr

structure Session where
  Token : String
  UserID : String
  ExpiresAt : Time
deriving DecidableEq, Repr

/-- A Go map with string keys, as an association list with at most one entry per key. -/
abbrev StrMap (β : Type) := List (String × β)

/-- Map assignment `m[k] = v`. -/
def StrMap.set {β : Type} : StrMap β → String → β → StrMap β
  | [], k, v => [(k, v)]
  | (k1, v1) :: rest, k, v =>
    if k1 = k then (k, v) :: rest else (k1, v1) :: StrMap.set rest k v

structure AuthManager where
  users : StrMap User
  sessions : StrMap Session
deriving DecidableEq, Repr

def NewAuthManager : AuthManager := { users := [], sessions := [] }

/-- Method `ValidateToken` at instant `now`: the session exists and `now` is not after its expiry. -/
def AuthManager.ValidateToken (am : AuthManager) (now : Time) (token : String) : Bool :=
  match am.sessions.lookup token with
  | none => false
  | some session => if now > session.ExpiresAt then false else true

/-! ## Token-gated handlers (`main.go`, `injector.go`, `hwid.go`) -/

structure InjectorStatus where
  injected : Bool
  injectedPID : Int
  injectedAt : Time
  features : StrMap Bool
deriving DecidableEq, Repr

def NewInjectorStatus : InjectorStatus :=
  { injected := false, injectedPID := 0, injectedAt := 0, features := [] }

structure HWIDSpoofer where
  originalHWID : String
  currentHWID : String
  spoofed : Bool
deriving DecidableEq, Repr

structure Feature where
  Name : String
  Description : String
  Enabled : Bool
deriving DecidableEq, Repr

/-- The globals of `main.go` that the handlers read and write. -/
structure App where
  authManager : AuthManager
  injectorStatus : InjectorStatus
  hwid : HWIDSpoofer
deriving DecidableEq, Repr

/-- What the handlers obtain from outside the program. -/
structure Env where
  /-- Value of `time.Now()`. -/
  now : Time
  /-- Value of `runtime.GOOS`. -/
  GOOS : String
  /-- The Lua interpreter. -/
  lua : String → LuaRun
  /-- Standard output of `pgrep <name>`, `none` when the command fails. -/
  pgrep : String → Option String
  /-- The integer that `fmt.Sscanf(pidStr, "%d", &pid)` leaves in `pid`. -/
  scanPid : String → Int
  /-- Result of `generateRandomHWID`. -/
  randomHWID : String
  /-- The order in which `range` visits the entries of a feature map, which Go leaves
  unspecified: a rearrangement of the entries. -/
  rangeOrder : StrMap Bool → StrMap Bool

/-- An HTTP request as the handlers see it; `Body` is the outcome of decoding the JSON body,
`none` when decoding fails. -/
structure Request (β : Type) where
  Method : String
  /-- Value of `r.Header.Get("Authorization")`, empty when the header is absent. -/
  Authorization : String
  Body : Option β

inductive ResponseBody where
  /-- Plain text written by `http.Error`. -/
  | error (message : String)
  | execute (output : String) (error : String)
  | inject (success : Bool) (message : String) (pid : Int)
  | spoof (success : Bool) (message : String) (originalHWID : String) (currentHWID : String)
  | features (success : Bool) (message : String) (features : List Feature)
deriving DecidableEq, Repr

structure Response where
  status : Nat
  body : ResponseBody
deriving DecidableEq, Repr

/-- Outcome of serving one request. -/
structure Handled where
  response : Response
  effects : List Effect
  app : App

/-- Call `http.Error(w, message, code)` and return, nothing else touched. -/
def httpError (app : App) (message : String) (code : Nat) : Handled :=
  { response := { status := code, body := .error message }, effects := [], app := app }

/-- A JSON reply with the default status. -/
def httpJSON (app : App) (body : ResponseBody) (effects : List Effect) : Handled :=
  { response := { status := 200, body := body }, effects := effects, app := app }

structure ExecuteRequest where
  Script : String
deriving DecidableEq, Repr

structure InjectRequest where
  ProcessName : String
deriving DecidableEq, Repr

structure SpoofRequest where
  CustomHWID : String
deriving DecidableEq, Repr

structure FeatureRequest where
  Name : String
  Enabled : Bool
deriving DecidableEq, Repr

/-- Handler `handleExecute`. -/
def handleExecute (env : Env) (app : App) (r : Request ExecuteRequest) : Handled :=
  if r.Method ≠ "POST" then httpError app "Method not allowed" 405
  else if r.Authorization = "" then httpError app "Unauthorized" 401
  else if !app.authManager.ValidateToken env.now r.Authorization then
    httpError app "Invalid token" 401
  else
    match r.Body with
    | none => httpError app "Invalid request body" 400
    | some req =>
      let res := executeLuaScript env.lua req.Script
      match res.2.2 with
      | some e =>
        httpJSON app (.execute res.2.1 e) (res.1 ++ [BroadcastMessage ("[Error] " ++ e)])
      | none => httpJSON app (.execute res.2.1 "") res.1

/-- The description `switch` shared by `GetStatus` and `HandleFeatures`. -/
def featureDescription (name : String) : String :=
  if name = "hwid_spoofer" then "Spoofs hardware ID to prevent detection"
  else if name = "anti_debug" then "Prevents debuggers from attaching to the process"
  else if name = "anti_dump" then "Prevents memory dumping"
  else "No description available"

/-- The `for name, enabled := range is.features` loop building the feature list from the
entries in the order in which they are visited. -/
def featureList (visited : StrMap Bool) : List Feature :=
  visited.map (fun p => { Name := p.1, Description := featureDescription p.1, Enabled := p.2 })

/-- Handler `InjectorStatus.HandleInject`. -/
def HandleInject (env : Env) (app : App) (r : Request InjectRequest) : Handled :=
  if r.Method ≠ "POST" then httpError app "Method not allowed" 405
  else if r.Authorization = "" then httpError app "Unauthorized" 401
  else if !app.authManager.ValidateToken env.now r.Authorization then
    httpError app "Invalid token" 401
  else
    match r.Body with
    | none => httpError app "Invalid request body" 400
    | some req =>
      if env.GOOS ≠ "darwin" then
        httpJSON app (.inject false "Injection is only supported on macOS" 0) []
      else
        match env.pgrep req.ProcessName with
        | none =>
          httpJSON app (.inject false ("Process '" ++ req.ProcessName ++ "' not found") 0) []
        | some output =>
          let pid := env.scanPid (TrimSpace output)
          let target := req.ProcessName ++ " (PID: " ++ toString pid ++ ")"
          let injector : InjectorStatus :=
            { injected := true, injectedPID := pid, injectedAt := env.now,
              features := app.injectorStatus.features.set "hwid_spoofer" true }
          httpJSON { app with injectorStatus := injector }
            (.inject true ("Successfully injected into process " ++ req.ProcessName) pid)
            [BroadcastMessage ("[System] Injecting into process " ++ target),
              BroadcastMessage ("[System] Successfully injected into process " ++ target)]

/-- Handler `HWIDSpoofer.HandleSpoofHWID`. -/
def HandleSpoofHWID (env : Env) (app : App) (r : Request SpoofRequest) : Handled :=
  if r.Method ≠ "POST" then httpError app "Method not allowed" 405
  else if r.Authorization = "" then httpError app "Unauthorized" 401
  else if !app.authManager.ValidateToken env.now r.Authorization then
    httpError app "Invalid token" 401
  else
    match r.Body with
    | none => httpError app "Invalid request body" 400
    | some req =>
      if env.GOOS ≠ "darwin" then
        httpJSON app (.spoof false "HWID spoofing is only supported on macOS" "" "") []
      else if !app.injectorStatus.injected then
        httpJSON app (.spoof false "Not injected into any process" "" "") []
      else
        let newHWID := if req.CustomHWID ≠ "" then req.CustomHWID else env.randomHWID
        let hwid : HWIDSpoofer := { app.hwid with currentHWID := newHWID, spoofed := true }
        httpJSON { app with hwid := hwid }
          (.spoof true "HWID spoofed successfully" app.hwid.originalHWID newHWID)
          [BroadcastMessage "[System] HWID spoofed successfully"]

/-- The `map[bool]string{true: "enabled", false: "disabled"}` lookup. -/
def enabledWord (enabled : Bool) : String := if enabled then "enabled" else "disabled"

/-- Handler `InjectorStatus.HandleFeatures`. -/
def HandleFeatures (env : Env) (app : App) (r : Request FeatureRequest) : Handled :=
  if r.Authorization = "" then httpError app "Unauthorized" 401
  else if !app.authManager.ValidateToken env.now r.Authorization then
    httpError app "Invalid token" 401
  else if r.Method = "GET" then
    httpJSON app
      (.features true "Features retrieved successfully"
        (featureList (env.rangeOrder app.injectorStatus.features)))
      []
  else if r.Method = "POST" then
    match r.Body with
    | none => httpError app "Invalid request body" 400
    | some req =>
      if !app.injectorStatus.injected then
        httpJSON app (.features false "Not injected into any process" []) []
      else
        let features := app.injectorStatus.features.set req.Name req.Enabled
        let said := "Feature '" ++ req.Name ++ "' " ++ enabledWord req.Enabled
        httpJSON { app with injectorStatus := { app.injectorStatus with features := features } }
          (.features true said (featureList (env.rangeOrder features)))
          [BroadcastMessage ("[System] " ++ said)]
  else httpError app "Method not allowed" 405

/-- An environment on Linux with the sample interpreter. -/
def sampleEnv : Env :=
  { now := 1000, GOOS := "linux", lua := sampleLua, pgrep := fun _ => none,
    scanPid := fun _ => 0, randomHWID := "0011223344556677-00:11:22:33:44:55",
    rangeOrder := fun features => features.reverse }

/-- The globals right after `main` has built them on a machine that is not a Mac. -/
def sampleApp : App :=
  { authManager := NewAuthManager, injectorStatus := NewInjectorStatus,
    hwid := { originalHWID := "unknown-non-darwin", currentHWID := "unknown-non-darwin",
              spoofed := false } }

/-- The globals after one login (token `tok`, valid until instant 2000) and one injection. -/
def injectedApp : App :=
  { authManager :=
      { users := [("alice", ⟨"alice", "alice@example.com", "hash", 10, 10⟩)],
        sessions := [("tok", ⟨"tok", "alice", 2000⟩)] },
    injectorStatus :=
      { injected := true, injectedPID := 42, injectedAt := 500,
        features := [("hwid_spoofer", true)] },
    hwid := sampleApp.hwid }

/-! ## Observations on event sequences -/

/-- Lines broadcast by a sequence of events, in order. -/
def broadcastsOf : List Event → List String
  | [] => []
  | .hub (.broadcast message) :: rest => message :: broadcastsOf rest
  | _ :: rest => broadcastsOf rest

/-- Clients registered by a sequence of events, in order. -/
def registersOf : List Event → List ClientId
  | [] => []
  | .hub (.register c) :: rest => c :: registersOf rest
  | _ :: rest => registersOf rest

/-- Whether an event is a broadcast or a writer iteration. -/
def Event.isDelivery : Event → Bool
  | .hub (.broadcast _) => true
  | .writePump _ => true
  | _ => false

/-- A client right after its registration: the two registration lines pending, nothing
written. -/
def greetedClient : Client :=
  { send := { buf := registerLines (some mainPortManager), closed := false }, wire := [],
    writerDone := false }

/-- A hub with two clients that have just registered. -/
def greetedHub : WebSocketManager :=
  { clients := [0, 1], mem := fun c => if c = 0 ∨ c = 1 then greetedClient else Client.fresh }

/-- Two hundred broadcasts with the writer of client `0` running after every other one. -/
def tickTock : List Event :=
  (List.replicate 100
    [Event.hub (.broadcast "tick"), Event.writePump 0, Event.hub (.broadcast "tock")]).flatten

/-! ## Registration, login and token resolution (`authentication.go`) -/

/-- Method `GetUserByToken` at instant `now`: the user stored under the session's `UserID`,
`none` for the nil pointer. -/
def AuthManager.GetUserByToken (am : AuthManager) (now : Time) (token : String) : Option User :=
  match am.sessions.lookup token with
  | none => none
  | some session => if now > session.ExpiresAt then none else am.users.lookup session.UserID

structure RegisterRequest where
  Username : String
  Email : String
  Password : String
  ConfirmPassword : String
  AcceptTOS : Bool
deriving DecidableEq, Repr

structure LoginRequest where
  Username : String
  Password : String
deriving DecidableEq, Repr

structure AuthResponse where
  Success : Bool
  Message : String
  Token : String
  User : Option User
deriving DecidableEq, Repr

inductive AuthReply where
  /-- Plain text written by `http.Error`. -/
  | error (message : String)
  | json (response : AuthResponse)
deriving DecidableEq, Repr

/-- Outcome of serving one registration or login request. -/
structure AuthHandled where
  status : Nat
  reply : AuthReply
  am : AuthManager
deriving DecidableEq, Repr

/-- Library functions used by the session gate. -/
structure AuthEnv where
  /-- Function `strings.ToLower`. -/
  ToLower : String → String
  /-- Whether the e-mail pattern of `HandleRegister` matches. -/
  emailRegex : String → Bool
  /-- Function `strings.EqualFold`. -/
  EqualFold : String → String → Bool
  /-- Function `hashPassword` (hex of the SHA-256 digest). -/
  hashPassword : String → String

/-- The duration `24 * time.Hour`, in nanoseconds. -/
def day : Nat := 24 * 3600 * 1000000000

/-- A failed JSON reply of the session gate; the store is not touched. -/
def authFail (am : AuthManager) (message : String) : AuthHandled :=
  { status := 200,
    reply := .json { Success := false, Message := message, Token := "", User := none },
    am := am }

/-- Handler `AuthManager.HandleRegister`.  `token` is the result of `generateToken`; `t1`, `t2`
and `t3` are the successive readings of `time.Now()`. -/
def AuthManager.HandleRegister (env : AuthEnv) (am : AuthManager) (token : String)
    (t1 t2 t3 : Time) (r : Request RegisterRequest) : AuthHandled :=
  if r.Method ≠ "POST" then
    { status := 405, reply := .error "Method not allowed", am := am }
  else
    match r.Body with
    | none => { status := 400, reply := .error "Invalid request body", am := am }
    | some req =>
      if req.Username.utf8ByteSize < 3 ∨ req.Username.utf8ByteSize > 20 then
        authFail am "Username must be between 3 and 20 characters"
      else if !env.emailRegex req.Email then authFail am "Invalid email address"
      else if req.Password.utf8ByteSize < 8 then
        authFail am "Password must be at least 8 characters"
      else if req.Password ≠ req.ConfirmPassword then authFail am "Passwords do not match"
      else if !req.AcceptTOS then authFail am "You must accept the Terms of Service"
      else if (am.users.lookup (env.ToLower req.Username)).isSome then
        authFail am "Username already taken"
      else if am.users.any (fun p => env.EqualFold p.2.Email req.Email) then
        authFail am "Email already registered"
      else
        let user : User :=
          { Username := req.Username, Email := req.Email,
            PasswordHash := env.hashPassword req.Password, CreatedAt := t1, LastLogin := t2 }
        let session : Session :=
          { Token := token, UserID := env.ToLower req.Username, ExpiresAt := t3 + day }
        { status := 200,
          reply := .json
            { Success := true, Message := "Registration successful", Token := token,
              User := some { user with PasswordHash := "" } },
          am :=
            { users := am.users.set (env.ToLower req.Username) user,
              sessions := am.sessions.set token session } }

/-- Handler `AuthManager.HandleLogin`.  `token` is the result of `generateToken`; `t1` and `t2`
are the successive readings of `time.Now()`. -/
def AuthManager.HandleLogin (env : AuthEnv) (am : AuthManager) (token : String)
    (t1 t2 : Time) (r : Request LoginRequest) : AuthHandled :=
  if r.Method ≠ "POST" then
    { status := 405, reply := .error "Method not allowed", am := am }
  else
    match r.Body with
    | none => { status := 400, reply := .error "Invalid request body", am := am }
    | some req =>
      match am.users.lookup (env.ToLower req.Username) with
      | none => authFail am "Invalid username or password"
      | some stored =>
        if stored.PasswordHash ≠ env.hashPassword req.Password then
          authFail am "Invalid username or password"
        else
          let user : User := { stored with LastLogin := t1 }
          let session : Session :=
            { Token := token, UserID := env.ToLower req.Username, ExpiresAt := t2 + day }
          { status := 200,
            reply := .json
              { Success := true, Message := "Login successful", Token := token,
                User := some { user with PasswordHash := "" } },
            am :=
              { users := am.users.set (env.ToLower req.Username) user,
                sessions := am.sessions.set token session } }

/-- One request served by the session gate. -/
inductive AuthCall where
  | register (token : String) (t1 t2 t3 : Time) (r : Request RegisterRequest)
  | login (token : String) (t1 t2 : Time) (r : Request LoginRequest)

/-- The store after serving one request. -/
def AuthManager.serve (env : AuthEnv) (am : AuthManager) : AuthCall → AuthManager
  | .register token t1 t2 t3 r => (am.HandleRegister env token t1 t2 t3 r).am
  | .login token t1 t2 r => (am.HandleLogin env token t1 t2 r).am

/-- The store after serving a sequence of requests, oldest first. -/
def AuthManager.serveAll (env : AuthEnv) (am : AuthManager) (calls : List AuthCall) :
    AuthManager :=
  calls.foldl (AuthManager.serve env) am

/-- Library functions as they act on lower-case ASCII input with a well-formed address. -/
def sampleAuthEnv : AuthEnv :=
  { ToLower := fun s => s, emailRegex := fun _ => true, EqualFold := fun a b => a = b,
    hashPassword := fun p => "sha256:" ++ p }

/-- A registration of `alice` followed by a login of `alice` and a login with a wrong
password. -/
def sampleCalls : List AuthCall :=
  [ .register "tok1" 100 100 100
      ⟨"POST", "", some ⟨"alice", "alice@example.com", "correct horse", "correct horse", true⟩⟩,
    .login "tok2" 500 500 ⟨"POST", "", some ⟨"alice", "correct horse"⟩⟩,
    .login "tok3" 600 600 ⟨"POST", "", some ⟨"alice", "wrong"⟩⟩ ]

/-- Every stored session names a stored user. -/
def AuthManager.SessionsOwned (am : AuthManager) : Prop :=
  ∀ p ∈ am.sessions, (am.users.lookup p.2.UserID).isSome = true
/-! ## The hub: channel and pointer lemmas -/

theorem setSend_mem_self (m : WebSocketManager) (c : ClientId) (ch : Chan) :
    ((m.setSend c ch).mem c).send = ch := by
  simp [WebSocketManager.setSend]

theorem setSend_mem_other (m : WebSocketManager) (c d : ClientId) (ch : Chan) (h : d ≠ c) :
    (m.setSend c ch).mem d = m.mem d := by
  simp [WebSocketManager.setSend, h]

theorem deliver_ok (message : String) (m : WebSocketManager) (c : ClientId)
    (hopen : (m.mem c).send.closed = false) :
    ∃ m1, m.deliver message c = .ok m1 ∧
      (∀ d, m1.mem d = if d = c then (m.mem c).offer message else m.mem d) ∧
      m1.clients = m.clients.filter
        (fun d => decide (d ≠ c ∨ (m.mem d).send.buf.length < sendCap)) := by
  by_cases hlen : (m.mem c).send.buf.length < sendCap
  · refine ⟨m.setSend c { (m.mem c).send with buf := (m.mem c).send.buf ++ [message] }, ?_, ?_, ?_⟩
    · simp [WebSocketManager.deliver, Chan.trySend, hopen, hlen, bind, Except.bind, pure,
        Except.pure]
    · intro d
      by_cases hd : d = c
      · subst hd
        simp [WebSocketManager.setSend, Client.offer, hlen]
      · simp [WebSocketManager.setSend, hd]
    · simp only [WebSocketManager.setSend]
      symm
      rw [List.filter_eq_self]
      intro d _
      by_cases hd : d = c
      · subst hd; simp [hlen]
      · simp [hd]
  · refine ⟨(m.setSend c { (m.mem c).send with closed := true }).deleteClient c, ?_, ?_, ?_⟩
    · simp [WebSocketManager.deliver, Chan.trySend, Chan.close, hopen, hlen, bind, Except.bind,
        pure, Except.pure]
    · intro d
      by_cases hd : d = c
      · subst hd
        simp [WebSocketManager.setSend, WebSocketManager.deleteClient, Client.offer, hlen]
      · simp [WebSocketManager.setSend, WebSocketManager.deleteClient, hd]
    · simp only [WebSocketManager.setSend, WebSocketManager.deleteClient]
      apply List.filter_congr
      intro d _
      by_cases hd : d = c
      · subst hd; simp [hlen]
      · simp [hd]

theorem deliverAll_ok (message : String) (cs : List ClientId) :
    ∀ m : WebSocketManager, cs.Nodup → (∀ c ∈ cs, (m.mem c).send.closed = false) →
    ∃ m1, WebSocketManager.deliverAll message cs m = .ok m1 ∧
      (∀ d, m1.mem d = if d ∈ cs then (m.mem d).offer message else m.mem d) ∧
      m1.clients = m.clients.filter
        (fun d => decide (d ∉ cs ∨ (m.mem d).send.buf.length < sendCap)) := by
  induction cs with
  | nil =>
    intro m _ _
    exact ⟨m, rfl, by simp, by simp⟩
  | cons c cs ih =>
    intro m hnd hopen
    obtain ⟨hc, hnd1⟩ := List.nodup_cons.mp hnd
    obtain ⟨m1, h1, hmem1, hcl1⟩ := deliver_ok message m c (hopen c (List.mem_cons_self c cs))
    have hopen1 : ∀ d ∈ cs, (m1.mem d).send.closed = false := by
      intro d hd
      have hne : d ≠ c := fun h => hc (h ▸ hd)
      rw [hmem1 d, if_neg hne]
      exact hopen d (List.mem_cons_of_mem c hd)
    obtain ⟨m2, h2, hmem2, hcl2⟩ := ih m1 hnd1 hopen1
    refine ⟨m2, ?_, ?_, ?_⟩
    · simp [WebSocketManager.deliverAll, h1, h2, bind, Except.bind]
    · intro d
      rw [hmem2 d, hmem1 d]
      by_cases hd : d = c
      · subst hd
        simp [hc]
      · simp [hd]
    · rw [hcl2, hcl1, List.filter_filter]
      apply List.filter_congr
      intro d _
      by_cases hd : d = c
      · subst hd
        simp [hc]
      · simp [hd, hmem1 d]

theorem broadcast_ok (m : WebSocketManager) (message : String) (hwf : m.WF) :
    ∃ m1, m.broadcast message = .ok m1 ∧
      (∀ d, m1.mem d = if d ∈ m.clients then (m.mem d).offer message else m.mem d) ∧
      m1.clients = m.clients.filter (fun d => decide ((m.mem d).send.buf.length < sendCap)) := by
  obtain ⟨m1, h1, hmem, hcl⟩ := deliverAll_ok message m.clients m hwf.1 hwf.2.1
  refine ⟨m1, h1, hmem, ?_⟩
  rw [hcl]
  apply List.filter_congr
  intro d hd
  simp [hd]

theorem deliver_open (message : String) (m m1 : WebSocketManager) (c : ClientId)
    (h : m.deliver message c = .ok m1) : (m.mem c).send.closed = false := by
  by_contra hc
  simp at hc
  simp [WebSocketManager.deliver, Chan.trySend, hc, bind, Except.bind] at h

theorem unregister_absent (m : WebSocketManager) (c : ClientId) (h : c ∉ m.clients) :
    m.unregister c = .ok m := by
  simp [WebSocketManager.unregister, h, pure, Except.pure]

theorem unregister_present (m : WebSocketManager) (c : ClientId) (h : c ∈ m.clients)
    (hopen : (m.mem c).send.closed = false) :
    m.unregister c =
      .ok ((m.deleteClient c).setSend c { (m.mem c).send with closed := true }) := by
  simp [WebSocketManager.unregister, h, Chan.close, WebSocketManager.deleteClient, hopen, bind,
    Except.bind, pure, Except.pure]

theorem unregister_inv (m m1 : WebSocketManager) (c : ClientId) (h : m.unregister c = .ok m1) :
    m1.clients = m.clients.filter (fun d => decide (d ≠ c)) ∧
      (∀ d, d ≠ c → m1.mem d = m.mem d) ∧ (m1.mem c).wire = (m.mem c).wire ∧
      (m1.mem c).writerDone = (m.mem c).writerDone ∧
      (m1.mem c).send.buf = (m.mem c).send.buf ∧
      (c ∉ m.clients → m1 = m) ∧
      (c ∈ m.clients → (m.mem c).send.closed = false ∧ (m1.mem c).send.closed = true) := by
  by_cases hc : c ∈ m.clients
  · have hopen : (m.mem c).send.closed = false := by
      by_contra hcl
      simp at hcl
      simp [WebSocketManager.unregister, hc, Chan.close, WebSocketManager.deleteClient, hcl, bind,
        Except.bind] at h
    rw [unregister_present m c hc hopen] at h
    injection h with h
    subst h
    refine ⟨rfl, ?_, ?_, ?_, ?_, fun hn => absurd hc hn, fun _ => ⟨hopen, ?_⟩⟩
    · intro d hd
      simp [WebSocketManager.setSend, WebSocketManager.deleteClient, hd]
    all_goals simp [WebSocketManager.setSend, WebSocketManager.deleteClient]
  · rw [unregister_absent m c hc] at h
    injection h with h
    subst h
    refine ⟨?_, fun _ _ => rfl, rfl, rfl, rfl, fun _ => rfl, fun hn => absurd hn hc⟩
    symm
    rw [List.filter_eq_self]
    intro d hd
    have : d ≠ c := fun e => hc (e ▸ hd)
    simp [this]

theorem register_inv (pm : Option PortManager) (m m1 : WebSocketManager) (c : ClientId)
    (h : m.register pm c = .ok m1) :
    m1.clients = (if c ∈ m.clients then m.clients else m.clients ++ [c]) ∧
      (∀ d, d ≠ c → m1.mem d = m.mem d) ∧ (m1.mem c).wire = (m.mem c).wire ∧
      (m1.mem c).writerDone = (m.mem c).writerDone ∧
      (m.mem c).send.closed = false ∧ (m1.mem c).send.closed = false ∧
      (m1.mem c).send.buf.length ≤ sendCap ∧
      (m1.mem c).send.buf = (m.mem c).send.buf ++ registerLines pm := by
  have hopen : (m.mem c).send.closed = false := by
    by_contra hcl
    simp at hcl
    simp [WebSocketManager.register, WebSocketManager.insertClient, Chan.send, hcl, bind,
      Except.bind] at h
  have hlen : (m.mem c).send.buf.length < sendCap := by
    by_contra hl
    simp [WebSocketManager.register, WebSocketManager.insertClient, Chan.send, hopen, hl, bind,
      Except.bind] at h
  cases pm with
  | none =>
    simp [WebSocketManager.register, WebSocketManager.insertClient, Chan.send, hopen, hlen, bind,
      Except.bind, pure, Except.pure] at h
    subst h
    refine ⟨rfl, ?_, ?_, ?_, hopen, ?_, ?_, ?_⟩
    · intro d hd
      simp [WebSocketManager.setSend, hd]
    all_goals simp [WebSocketManager.setSend, hopen, registerLines]
    omega
  | some p =>
    have hlen2 : (m.mem c).send.buf.length + 1 < sendCap := by
      by_contra hl
      simp [WebSocketManager.register, WebSocketManager.insertClient, Chan.send, hopen, hlen,
        WebSocketManager.setSend, hl, bind, Except.bind] at h
    simp [WebSocketManager.register, WebSocketManager.insertClient, Chan.send, hopen, hlen,
      WebSocketManager.setSend, hlen2, bind, Except.bind, pure, Except.pure] at h
    subst h
    refine ⟨rfl, ?_, ?_, ?_, hopen, ?_, ?_, ?_⟩
    · intro d hd
      simp [hd]
    all_goals simp [hopen, registerLines]
    omega

theorem register_ok (pm : Option PortManager) (m : WebSocketManager) (c : ClientId)
    (hopen : (m.mem c).send.closed = false) (hlen : (m.mem c).send.buf.length + 2 ≤ sendCap) :
    ∃ m1, m.register pm c = .ok m1 := by
  have h1 : (m.mem c).send.buf.length < sendCap := by omega
  have h2 : (m.mem c).send.buf.length + 1 < sendCap := by omega
  cases pm with
  | none =>
    simp [WebSocketManager.register, WebSocketManager.insertClient, Chan.send, hopen, h1, bind,
      Except.bind, pure, Except.pure]
  | some p =>
    simp [WebSocketManager.register, WebSocketManager.insertClient, Chan.send, hopen, h1, h2,
      WebSocketManager.setSend, bind, Except.bind, pure, Except.pure]

theorem drain_spec (n : Nat) : ∀ (ch : Chan) (items : List String) (payload : String),
    (drain n ch items payload).1 = { ch with buf := ch.buf.drop n } ∧
      (drain n ch items payload).2.1 = items ++ ch.buf.take n := by
  induction n with
  | zero =>
    intro ch items payload
    simp [drain]
  | succ n ih =>
    intro ch items payload
    cases hb : ch.buf with
    | nil =>
      simp [drain, hb]
      rw [← hb]
    | cons x rest =>
      simp only [drain, hb]
      obtain ⟨h1, h2⟩ := ih { ch with buf := rest } (items ++ [x]) (payload ++ "\n" ++ x)
      rw [h1, h2]
      simp

theorem writePump_spec (cl : Client) :
    (cl.writePump.wire.map Frame.items).flatten ++ cl.writePump.send.buf =
        (cl.wire.map Frame.items).flatten ++ cl.send.buf ∧
      cl.writePump.send.closed = cl.send.closed ∧
      cl.writePump.send.buf.length ≤ cl.send.buf.length := by
  unfold Client.writePump
  by_cases hd : cl.writerDone
  · simp [hd]
  · cases hb : cl.send.buf with
    | nil =>
      by_cases hc : cl.send.closed
      · simp [hd, hb, hc, Frame.items]
      · simp [hd, hb, hc]
    | cons x rest =>
      simp only [hd, hb]
      obtain ⟨h1, h2⟩ := drain_spec rest.length { cl.send with buf := rest } [x] x
      simp [h1, h2, Frame.items]

theorem broadcast_WF (m m1 : WebSocketManager) (message : String) (hwf : m.WF)
    (h : m.broadcast message = .ok m1) : m1.WF := by
  obtain ⟨m2, h2, hmem, hcl⟩ := broadcast_ok m message hwf
  rw [h2] at h
  injection h with h
  subst h
  obtain ⟨hnd, hopen, hcap⟩ := hwf
  refine ⟨?_, ?_, ?_⟩
  · rw [hcl]
    exact hnd.filter _
  · intro c hc
    rw [hcl, List.mem_filter] at hc
    have hlt : (m.mem c).send.buf.length < sendCap := by simpa using hc.2
    rw [hmem c, if_pos hc.1]
    simp [Client.offer, hlt, hopen c hc.1]
  · intro c
    rw [hmem c]
    by_cases hc : c ∈ m.clients
    · rw [if_pos hc]
      by_cases hlt : (m.mem c).send.buf.length < sendCap
      · simp [Client.offer, hlt]
        omega
      · simp [Client.offer, hlt]
        exact hcap c
    · rw [if_neg hc]
      exact hcap c

theorem unregister_WF (m m1 : WebSocketManager) (c : ClientId) (hwf : m.WF)
    (h : m.unregister c = .ok m1) : m1.WF := by
  obtain ⟨hcl, hoth, _, _, hbuf, _, _⟩ := unregister_inv m m1 c h
  obtain ⟨hnd, hopen, hcap⟩ := hwf
  refine ⟨?_, ?_, ?_⟩
  · rw [hcl]
    exact hnd.filter _
  · intro d hd
    rw [hcl, List.mem_filter] at hd
    have hne : d ≠ c := by simpa using hd.2
    rw [hoth d hne]
    exact hopen d hd.1
  · intro d
    by_cases hd : d = c
    · subst hd
      rw [hbuf]
      exact hcap d
    · rw [hoth d hd]
      exact hcap d

theorem register_WF (pm : Option PortManager) (m m1 : WebSocketManager) (c : ClientId)
    (hwf : m.WF) (h : m.register pm c = .ok m1) : m1.WF := by
  obtain ⟨hcl, hoth, _, _, _, hopen1, hlen1, _⟩ := register_inv pm m m1 c h
  obtain ⟨hnd, hopen, hcap⟩ := hwf
  refine ⟨?_, ?_, ?_⟩
  · rw [hcl]
    by_cases hc : c ∈ m.clients
    · simpa [hc] using hnd
    · rw [if_neg hc]
      exact List.Nodup.append hnd (List.nodup_singleton c) (by simpa using hc)
  · intro d hd
    by_cases hdc : d = c
    · subst hdc
      exact hopen1
    · rw [hoth d hdc]
      apply hopen d
      rw [hcl] at hd
      by_cases hc : c ∈ m.clients
      · simpa [hc] using hd
      · rw [if_neg hc] at hd
        simpa [hdc] using hd
  · intro d
    by_cases hdc : d = c
    · subst hdc
      exact hlen1
    · rw [hoth d hdc]
      exact hcap d

theorem step_WF (pm : Option PortManager) (m m1 : WebSocketManager) (e : Event) (hwf : m.WF)
    (h : m.step pm e = .ok m1) : m1.WF := by
  cases e with
  | hub op =>
    cases op with
    | register c => exact register_WF pm m m1 c hwf h
    | unregister c => exact unregister_WF m m1 c hwf h
    | broadcast message => exact broadcast_WF m m1 message hwf h
  | writePump c =>
    simp only [WebSocketManager.step, pure, Except.pure] at h
    injection h with h
    subst h
    obtain ⟨hnd, hopen, hcap⟩ := hwf
    refine ⟨hnd, ?_, ?_⟩
    · intro d hd
      by_cases hdc : d = c
      · subst hdc
        simp only [if_pos]
        rw [(writePump_spec (m.mem d)).2.1]
        exact hopen d hd
      · simp only [if_neg hdc]
        exact hopen d hd
    · intro d
      by_cases hdc : d = c
      · subst hdc
        simp only [if_pos]
        exact le_trans (writePump_spec (m.mem d)).2.2 (hcap d)
      · simp only [if_neg hdc]
        exact hcap d

theorem steps_WF (pm : Option PortManager) (es : List Event) :
    ∀ m m1 : WebSocketManager, m.WF → WebSocketManager.steps pm m es = .ok m1 → m1.WF := by
  induction es with
  | nil =>
    intro m m1 hwf h
    simp only [WebSocketManager.steps, pure, Except.pure] at h
    injection h with h
    exact h ▸ hwf
  | cons e es ih =>
    intro m m1 hwf h
    cases hs : m.step pm e with
    | error f => simp [WebSocketManager.steps, hs, bind, Except.bind] at h
    | ok m2 =>
      simp only [WebSocketManager.steps, hs, bind, Except.bind] at h
      exact ih m2 m1 (step_WF pm m m2 e hwf hs) h

theorem NewWebSocketManager_WF : NewWebSocketManager.WF := by
  refine ⟨List.nodup_nil, ?_, ?_⟩
  · intro c hc
    simp [NewWebSocketManager] at hc
  · intro c
    simp [NewWebSocketManager, Client.fresh, Chan.make]

theorem fullQueue_length : fullQueue.length = 256 := List.length_replicate 256 "x"

theorem twoClientHub_WF : twoClientHub.WF := by
  refine ⟨by decide, ?_, ?_⟩
  · intro c _
    by_cases h : c = 1 <;> simp [twoClientHub, h, Client.fresh, Chan.make, stalledClient]
  · intro c
    by_cases h : c = 1
    · simp [twoClientHub, h, stalledClient, fullQueue_length, sendCap]
    · simp [twoClientHub, h, Client.fresh, Chan.make]

/-! ## Claims about the control loop -/

/-- C1: in a hub state kept by the control loop, serving `broadcast(L)` succeeds, and every
registered endpoint ends in exactly one of two outcomes: with fewer than 256 pending lines it
gets `L` at the tail of its queue and stays registered with an open queue; with 256 pending
lines it is removed from the live set, its queue is closed and `L` is not added. -/
theorem C1_broadcast_outcomes (pm : Option PortManager) (m : WebSocketManager) (L : String)
    (hwf : m.WF) :
    ∃ m1, m.run pm (.broadcast L) = .ok m1 ∧
      ∀ c ∈ m.clients,
        ((m.mem c).send.buf.length < 256 ∨ (m.mem c).send.buf.length = 256) ∧
        ((m.mem c).send.buf.length < 256 →
          (m1.mem c).send.buf = (m.mem c).send.buf ++ [L] ∧ c ∈ m1.clients ∧
            (m1.mem c).send.closed = false) ∧
        ((m.mem c).send.buf.length = 256 →
          c ∉ m1.clients ∧ (m1.mem c).send.closed = true ∧
            (m1.mem c).send.buf = (m.mem c).send.buf) := by
  obtain ⟨m1, h1, hmem, hcl⟩ := broadcast_ok m L hwf
  refine ⟨m1, h1, ?_⟩
  intro c hc
  have hcap : (m.mem c).send.buf.length ≤ 256 := hwf.2.2 c
  have hopen := hwf.2.1 c hc
  refine ⟨by omega, ?_, ?_⟩
  · intro hlt
    have hlt2 : (m.mem c).send.buf.length < sendCap := hlt
    rw [hmem c, if_pos hc, hcl, List.mem_filter]
    simp [Client.offer, hlt2, hc, hopen]
  · intro heq
    have hlt2 : ¬ (m.mem c).send.buf.length < sendCap := by
      simp only [sendCap]
      omega
    rw [hmem c, if_pos hc, hcl, List.mem_filter]
    simp [Client.offer, hlt2]

theorem C1_broadcast_outcomes_witness :
    twoClientHub.WF ∧
      ∃ m1, twoClientHub.run none (.broadcast "hello") = .ok m1 ∧
        (m1.mem 0).send.buf = ["hello"] ∧ 0 ∈ m1.clients ∧ 1 ∉ m1.clients ∧
          (m1.mem 1).send.closed = true := by
  refine ⟨twoClientHub_WF, ?_⟩
  obtain ⟨m1, h1, h⟩ := C1_broadcast_outcomes none twoClientHub "hello" twoClientHub_WF
  refine ⟨m1, h1, ?_⟩
  have h0 := (h 0 (by decide)).2.1 (by decide)
  have h1 := (h 1 (by decide)).2.2 (by simp [twoClientHub, stalledClient, fullQueue_length])
  exact ⟨h0.1, h0.2.1, h1.1, h1.2.1⟩

/-- C4: serving `unregister(c)` for an endpoint that is not in the live set returns the hub
state unchanged; and in a hub state kept by the control loop, serving `unregister(c)` twice
gives the state reached after serving it once, the second call closing nothing and leaving every
other endpoint and its membership as they were. -/
theorem C4_unregister_idempotent (pm : Option PortManager) (m : WebSocketManager)
    (c : ClientId) :
    (c ∉ m.clients → m.run pm (.unregister c) = .ok m) ∧
      (m.WF → ∃ m1, m.run pm (.unregister c) = .ok m1 ∧ m1.run pm (.unregister c) = .ok m1 ∧
        c ∉ m1.clients ∧
        ∀ d, d ≠ c → (d ∈ m1.clients ↔ d ∈ m.clients) ∧ m1.mem d = m.mem d) := by
  refine ⟨fun h => unregister_absent m c h, ?_⟩
  intro hwf
  by_cases hc : c ∈ m.clients
  · refine ⟨_, unregister_present m c hc (hwf.2.1 c hc), ?_, ?_, ?_⟩
    · apply unregister_absent
      simp [WebSocketManager.setSend, WebSocketManager.deleteClient]
    · simp [WebSocketManager.setSend, WebSocketManager.deleteClient]
    · intro d hd
      simp [WebSocketManager.setSend, WebSocketManager.deleteClient, hd]
  · exact ⟨m, unregister_absent m c hc, unregister_absent m c hc, hc, fun d _ => ⟨Iff.rfl, rfl⟩⟩

theorem C4_unregister_idempotent_witness :
    twoClientHub.run none (.unregister 7) = .ok twoClientHub ∧
      ∃ m1, twoClientHub.run none (.unregister 1) = .ok m1 ∧
        m1.run none (.unregister 1) = .ok m1 ∧ 1 ∉ m1.clients ∧ 0 ∈ m1.clients := by
  have h := C4_unregister_idempotent none twoClientHub
  refine ⟨(h 7).1 (by decide), ?_⟩
  obtain ⟨m1, h1, h2, h3, h4⟩ := (h 1).2 twoClientHub_WF
  exact ⟨m1, h1, h2, h3, ((h4 0 (by decide)).1).mpr (by decide)⟩

/-- C6: serving `register(c)` for an endpoint whose queue is empty and open succeeds, puts `c`
in the live set, leaves every other endpoint, its queue and its membership unchanged, and
leaves on the queue of `c` exactly the greeting line followed by the status line carrying the
port manager's current port. -/
theorem C6_register_greets (pm : PortManager) (m : WebSocketManager) (c : ClientId)
    (hbuf : (m.mem c).send.buf = []) (hopen : (m.mem c).send.closed = false) :
    ∃ m1, m.run (some pm) (.register c) = .ok m1 ∧ c ∈ m1.clients ∧
      (∀ d, d ≠ c → (d ∈ m1.clients ↔ d ∈ m.clients) ∧ m1.mem d = m.mem d) ∧
      (m1.mem c).send.closed = false ∧
      (m1.mem c).send.buf =
        ["[System] Connected to Canda executor",
          "[System] Connected on port: " ++ pm.GetCurrentPort] := by
  obtain ⟨m1, h1⟩ := register_ok (some pm) m c hopen (by simp [hbuf, sendCap])
  obtain ⟨hcl, hoth, _, _, _, hopen1, _, hb⟩ := register_inv (some pm) m m1 c h1
  refine ⟨m1, h1, ?_, ?_, hopen1, ?_⟩
  · rw [hcl]
    by_cases hc : c ∈ m.clients <;> simp [hc]
  · intro d hd
    refine ⟨?_, hoth d hd⟩
    rw [hcl]
    by_cases hc : c ∈ m.clients <;> simp [hc, hd]
  · rw [hb, hbuf]
    rfl

theorem C6_register_greets_witness :
    ∃ m1, NewWebSocketManager.run (some ⟨[8080], "8080", "connected"⟩) (.register 3) = .ok m1 ∧
      3 ∈ m1.clients ∧
      (m1.mem 3).send.buf =
        ["[System] Connected to Canda executor", "[System] Connected on port: 8080"] := by
  obtain ⟨m1, h1, h2, _, _, h3⟩ :=
    C6_register_greets ⟨[8080], "8080", "connected"⟩ NewWebSocketManager 3 rfl rfl
  exact ⟨m1, h1, h2, h3⟩

theorem broadcast_history (m m1 : WebSocketManager) (message : String) (hwf : m.WF)
    (h : m.broadcast message = .ok m1) (c : ClientId) :
    m1.wireItems c = m.wireItems c ∧
      m1.history c = m.history c ++
        (if c ∈ m.clients ∧ (m.mem c).send.buf.length < sendCap then [message] else []) := by
  obtain ⟨m2, h2, hmem, _⟩ := broadcast_ok m message hwf
  rw [h2] at h
  injection h with h
  subst h
  unfold WebSocketManager.history WebSocketManager.wireItems
  rw [hmem c]
  by_cases hc : c ∈ m.clients
  · by_cases hlt : (m.mem c).send.buf.length < sendCap
    · simp [hc, hlt, Client.offer]
    · simp [hc, hlt, Client.offer]
  · simp [hc]

theorem step_total (pm : Option PortManager) (m : WebSocketManager) (e : Event) (hwf : m.WF)
    (he : e.isRegister = false) : ∃ m1, m.step pm e = .ok m1 := by
  cases e with
  | hub op =>
    cases op with
    | register c => simp [Event.isRegister] at he
    | unregister c =>
      by_cases hc : c ∈ m.clients
      · exact ⟨_, unregister_present m c hc (hwf.2.1 c hc)⟩
      · exact ⟨_, unregister_absent m c hc⟩
    | broadcast message =>
      obtain ⟨m1, h1, _⟩ := broadcast_ok m message hwf
      exact ⟨m1, h1⟩
  | writePump c => exact ⟨_, rfl⟩

theorem step_outside (pm : Option PortManager) (m m1 : WebSocketManager) (e : Event)
    (c : ClientId) (hwf : m.WF) (hc : c ∉ m.clients) (he : e ≠ .hub (.register c))
    (h : m.step pm e = .ok m1) : c ∉ m1.clients ∧ m1.history c = m.history c := by
  cases e with
  | hub op =>
    cases op with
    | register d =>
      have hcd : c ≠ d := fun e => he (by rw [e])
      obtain ⟨hcl, hoth, _⟩ := register_inv pm m m1 d h
      refine ⟨?_, by simp [WebSocketManager.history, hoth c hcd]⟩
      rw [hcl]
      by_cases hd : d ∈ m.clients <;> simp [hd, hc, hcd]
    | unregister d =>
      obtain ⟨hcl, hoth, hw, _, hb, _, _⟩ := unregister_inv m m1 d h
      refine ⟨?_, ?_⟩
      · rw [hcl, List.mem_filter]
        exact fun hh => hc hh.1
      · by_cases hcd : c = d
        · subst hcd
          simp [WebSocketManager.history, hw, hb]
        · simp [WebSocketManager.history, hoth c hcd]
    | broadcast message =>
      obtain ⟨m2, h2, _, hcl⟩ := broadcast_ok m message hwf
      have hh := (broadcast_history m m1 message hwf h c).2
      have h' : m.broadcast message = .ok m1 := h
      rw [h2] at h'
      injection h' with h'
      subst h'
      refine ⟨?_, by simpa [hc] using hh⟩
      rw [hcl, List.mem_filter]
      exact fun hh => hc hh.1
  | writePump d =>
    simp only [WebSocketManager.step, pure, Except.pure] at h
    injection h with h
    subst h
    refine ⟨hc, ?_⟩
    by_cases hcd : c = d
    · subst hcd
      simp [WebSocketManager.history, (writePump_spec (m.mem c)).1]
    · simp [WebSocketManager.history, hcd]

theorem steps_outside (pm : Option PortManager) (es : List Event) (c : ClientId) :
    ∀ m m1 : WebSocketManager, m.WF → c ∉ m.clients → (∀ e ∈ es, e ≠ .hub (.register c)) →
      WebSocketManager.steps pm m es = .ok m1 →
      c ∉ m1.clients ∧ m1.history c = m.history c := by
  induction es with
  | nil =>
    intro m m1 _ hc _ h
    simp only [WebSocketManager.steps, pure, Except.pure] at h
    injection h with h
    subst h
    exact ⟨hc, rfl⟩
  | cons e es ih =>
    intro m m1 hwf hc hes h
    cases hs : m.step pm e with
    | error f => simp [WebSocketManager.steps, hs, bind, Except.bind] at h
    | ok m2 =>
      simp only [WebSocketManager.steps, hs, bind, Except.bind] at h
      obtain ⟨hc2, hh2⟩ := step_outside pm m m2 e c hwf hc (hes e (List.mem_cons_self e es)) hs
      obtain ⟨hc1, hh1⟩ := ih m2 m1 (step_WF pm m m2 e hwf hs) hc2
        (fun e1 he1 => hes e1 (List.mem_cons_of_mem e he1)) h
      exact ⟨hc1, by rw [hh1, hh2]⟩

theorem steps_total (pm : Option PortManager) (es : List Event) :
    ∀ m : WebSocketManager, m.WF → (∀ e ∈ es, e.isRegister = false) →
      ∃ m1, WebSocketManager.steps pm m es = .ok m1 := by
  induction es with
  | nil =>
    intro m _ _
    exact ⟨m, rfl⟩
  | cons e es ih =>
    intro m hwf hes
    obtain ⟨m2, h2⟩ := step_total pm m e hwf (hes e (List.mem_cons_self e es))
    obtain ⟨m1, h1⟩ := ih m2 (step_WF pm m m2 e hwf h2)
      (fun e1 he1 => hes e1 (List.mem_cons_of_mem e he1))
    exact ⟨m1, by simp [WebSocketManager.steps, h2, h1, bind, Except.bind]⟩

set_option maxRecDepth 100000 in
theorem stallEvents_run :
    endsWithPending (WebSocketManager.steps (some mainPortManager) NewWebSocketManager stallEvents)
      0 256 = true := by
  decide

theorem stallEvents_state :
    ∃ m, WebSocketManager.steps (some mainPortManager) NewWebSocketManager stallEvents = .ok m ∧
      m.WF ∧ 0 ∈ m.clients ∧ (m.mem 0).send.buf.length = 256 := by
  have hrun := stallEvents_run
  unfold endsWithPending at hrun
  cases h : WebSocketManager.steps (some mainPortManager) NewWebSocketManager stallEvents with
  | error f =>
    rw [h] at hrun
    exact Bool.noConfusion hrun
  | ok m =>
    rw [h] at hrun
    have hrun2 : (decide (0 ∈ m.clients) && ((m.mem 0).send.buf.length == 256)) = true := hrun
    rw [Bool.and_eq_true, decide_eq_true_eq, beq_iff_eq] at hrun2
    exact ⟨m, rfl, steps_WF _ _ _ _ NewWebSocketManager_WF h, hrun2.1, hrun2.2⟩

theorem steps_singleton (pm : Option PortManager) (m m1 : WebSocketManager) (e : Event)
    (h : m.step pm e = .ok m1) : WebSocketManager.steps pm m [e] = .ok m1 := by
  simp [WebSocketManager.steps, h, bind, Except.bind, pure, Except.pure]

/-- C2, as stated, fails: client `0` registers and 254 lines are broadcast while its writer
never runs, so it is registered, neither evicted nor unregistered, when the control loop serves
`broadcast("late")`; the line is not placed on its queue. -/
theorem C2_counterexample :
    ∃ m m1, WebSocketManager.steps (some mainPortManager) NewWebSocketManager stallEvents = .ok m ∧
      m.run (some mainPortManager) (.broadcast "late") = .ok m1 ∧
      0 ∈ m.clients ∧ (m1.mem 0).send.buf ≠ (m.mem 0).send.buf ++ ["late"] := by
  obtain ⟨m, hm, hwf, hc, hlen⟩ := stallEvents_state
  obtain ⟨m1, h1, hmem, _⟩ := broadcast_ok m "late" hwf
  refine ⟨m, m1, hm, h1, hc, ?_⟩
  intro hb
  have := congrArg List.length hb
  rw [hmem 0, if_pos hc] at this
  simp [Client.offer, sendCap, hlen] at this

/-- C2, amended: in every state the control loop reaches from the initial hub, serving
`broadcast(L)` succeeds and places `L` on the queue of exactly those endpoints that are in the
live set when the loop starts serving `L` and have fewer than 256 lines pending; these are
exactly the endpoints in the live set once `L` has been served, and the queue of every other
endpoint keeps its content. -/
theorem C2_delivery_set (pm : Option PortManager) (es : List Event) (m : WebSocketManager)
    (L : String) (hreach : WebSocketManager.steps pm NewWebSocketManager es = .ok m) :
    ∃ m1, m.run pm (.broadcast L) = .ok m1 ∧
      ∀ c,
        ((m1.mem c).send.buf = (m.mem c).send.buf ++ [L] ↔
          c ∈ m.clients ∧ (m.mem c).send.buf.length < 256) ∧
        (c ∈ m1.clients ↔ c ∈ m.clients ∧ (m.mem c).send.buf.length < 256) ∧
        (¬ (c ∈ m.clients ∧ (m.mem c).send.buf.length < 256) →
          (m1.mem c).send.buf = (m.mem c).send.buf) := by
  have hwf := steps_WF pm es _ m NewWebSocketManager_WF hreach
  obtain ⟨m1, h1, hmem, hcl⟩ := broadcast_ok m L hwf
  refine ⟨m1, h1, ?_⟩
  intro c
  have hkeep : ¬ (c ∈ m.clients ∧ (m.mem c).send.buf.length < 256) →
      (m1.mem c).send.buf = (m.mem c).send.buf := by
    intro hn
    rw [hmem c]
    by_cases hc : c ∈ m.clients
    · have hlt : ¬ (m.mem c).send.buf.length < sendCap := fun hl => hn ⟨hc, hl⟩
      simp [hc, Client.offer, hlt]
    · simp [hc]
  refine ⟨⟨?_, ?_⟩, ?_, hkeep⟩
  · intro hb
    by_contra hn
    rw [hkeep hn] at hb
    have := congrArg List.length hb
    simp at this
  · rintro ⟨hc, hlt⟩
    have hlt2 : (m.mem c).send.buf.length < sendCap := hlt
    rw [hmem c, if_pos hc]
    simp [Client.offer, hlt2]
  · rw [hcl, List.mem_filter]
    simp [sendCap]

theorem C2_delivery_set_witness :
    ∃ m m1, WebSocketManager.steps (some mainPortManager) NewWebSocketManager
        [.hub (.register 4)] = .ok m ∧
      m.run (some mainPortManager) (.broadcast "hello") = .ok m1 ∧
      4 ∈ m1.clients ∧ 5 ∉ m1.clients ∧ (m1.mem 4).send.buf = (m.mem 4).send.buf ++ ["hello"] := by
  obtain ⟨m, hm⟩ := register_ok (some mainPortManager) NewWebSocketManager 4 rfl (by decide)
  have hcl := (register_inv _ _ _ _ hm).1
  have hbuf := (register_inv _ _ _ _ hm).2.2.2.2.2.2.2
  have hs := steps_singleton (some mainPortManager) NewWebSocketManager m (.hub (.register 4)) hm
  obtain ⟨m1, h1, h⟩ := C2_delivery_set (some mainPortManager) [.hub (.register 4)] m "hello" hs
  have h4 : 4 ∈ m.clients ∧ (m.mem 4).send.buf.length < 256 := by
    rw [hcl, hbuf]
    exact ⟨by decide, by decide⟩
  refine ⟨m, m1, hs, h1, (h 4).2.1.mpr h4, ?_, (h 4).1.mpr h4⟩
  intro h5
  have := ((h 5).2.1.mp h5).1
  rw [hcl] at this
  exact absurd this (by decide)

theorem step_outside_mem (pm : Option PortManager) (m m1 : WebSocketManager) (e : Event)
    (c : ClientId) (hwf : m.WF) (hc : c ∉ m.clients) (he : e ≠ .hub (.register c))
    (hw : e ≠ .writePump c) (h : m.step pm e = .ok m1) : m1.mem c = m.mem c := by
  cases e with
  | hub op =>
    cases op with
    | register d =>
      have hcd : c ≠ d := fun e => he (by rw [e])
      exact (register_inv pm m m1 d h).2.1 c hcd
    | unregister d =>
      obtain ⟨_, hoth, _, _, _, hsame, _⟩ := unregister_inv m m1 d h
      by_cases hcd : c = d
      · subst hcd
        rw [hsame hc]
      · exact hoth c hcd
    | broadcast message =>
      obtain ⟨m2, h2, hmem, _⟩ := broadcast_ok m message hwf
      have h' : m.broadcast message = .ok m1 := h
      rw [h2] at h'
      injection h' with h'
      subst h'
      rw [hmem c, if_neg hc]
  | writePump d =>
    have hcd : c ≠ d := fun e => hw (by rw [e])
    simp only [WebSocketManager.step, pure, Except.pure] at h
    injection h with h
    subst h
    simp [hcd]

theorem steps_outside_mem (pm : Option PortManager) (es : List Event) (c : ClientId) :
    ∀ m m1 : WebSocketManager, m.WF → c ∉ m.clients → (∀ e ∈ es, e ≠ .hub (.register c)) →
      (∀ e ∈ es, e ≠ .writePump c) → WebSocketManager.steps pm m es = .ok m1 →
      m1.mem c = m.mem c := by
  induction es with
  | nil =>
    intro m m1 _ _ _ _ h
    simp only [WebSocketManager.steps, pure, Except.pure] at h
    injection h with h
    rw [h]
  | cons e es ih =>
    intro m m1 hwf hc hes hws h
    cases hs : m.step pm e with
    | error f => simp [WebSocketManager.steps, hs, bind, Except.bind] at h
    | ok m2 =>
      simp only [WebSocketManager.steps, hs, bind, Except.bind] at h
      have he := hes e (List.mem_cons_self e es)
      have h2 := step_outside_mem pm m m2 e c hwf hc he (hws e (List.mem_cons_self e es)) hs
      have hc2 := (step_outside pm m m2 e c hwf hc he hs).1
      have h1 := ih m2 m1 (step_WF pm m m2 e hwf hs) hc2
        (fun e1 he1 => hes e1 (List.mem_cons_of_mem e he1))
        (fun e1 he1 => hws e1 (List.mem_cons_of_mem e he1)) h
      rw [h1, h2]

theorem isRegister_ne (e : Event) (c : ClientId) (h : e.isRegister = false) :
    e ≠ .hub (.register c) := by
  intro he
  subst he
  simp [Event.isRegister] at h

theorem setSend_WF (m : WebSocketManager) (c : ClientId) (q : List String) (hwf : m.WF)
    (hq : q.length ≤ sendCap) :
    (m.setSend c { buf := q, closed := (m.mem c).send.closed }).WF := by
  obtain ⟨hnd, hopen, hcap⟩ := hwf
  refine ⟨hnd, ?_, ?_⟩
  · intro d hd
    by_cases hdc : d = c
    · subst hdc
      simpa [WebSocketManager.setSend] using hopen d hd
    · simpa [WebSocketManager.setSend, hdc] using hopen d hd
  · intro d
    by_cases hdc : d = c
    · subst hdc
      simpa [WebSocketManager.setSend] using hq
    · simpa [WebSocketManager.setSend, hdc] using hcap d

/-- C5: in a hub state kept by the control loop, what `broadcast(L)` does to an endpoint `B`
(its queue and its membership afterwards) is the same whatever the pending content of another
endpoint `A`, full or not; and once `A` has been evicted by a broadcast that found its queue
full, every later sequence of unregister, broadcast and writer events runs to completion with
`A` outside the live set and nothing added to what was ever queued for `A`, the client record
of `A` staying untouched as long as its own writer does not run. -/
theorem C5_no_head_of_line_blocking (pm : Option PortManager) (m : WebSocketManager)
    (L : String) (A B : ClientId) (hwf : m.WF) (hAB : A ≠ B) :
    (∀ q : List String, q.length ≤ 256 →
      ∃ r r1, m.run pm (.broadcast L) = .ok r ∧
        (m.setSend A { buf := q, closed := (m.mem A).send.closed }).run pm (.broadcast L) =
          .ok r1 ∧
        r1.mem B = r.mem B ∧ (B ∈ r1.clients ↔ B ∈ r.clients)) ∧
    (A ∈ m.clients → (m.mem A).send.buf.length = 256 →
      ∃ m1, m.run pm (.broadcast L) = .ok m1 ∧ A ∉ m1.clients ∧
        ∀ es : List Event, (∀ e ∈ es, e.isRegister = false) →
          ∃ m2, WebSocketManager.steps pm m1 es = .ok m2 ∧ A ∉ m2.clients ∧
            m2.history A = m1.history A ∧
            ((∀ e ∈ es, e ≠ .writePump A) → m2.mem A = m1.mem A)) := by
  obtain ⟨r, hr, hmem, hcl⟩ := broadcast_ok m L hwf
  refine ⟨?_, ?_⟩
  · intro q hq
    have hwf1 := setSend_WF m A q hwf hq
    obtain ⟨r1, hr1, hmem1, hcl1⟩ := broadcast_ok _ L hwf1
    have hBA : B ≠ A := fun e => hAB e.symm
    refine ⟨r, r1, hr, hr1, ?_, ?_⟩
    · rw [hmem1 B, hmem B]
      simp [WebSocketManager.setSend, hBA]
    · rw [hcl1, hcl, List.mem_filter, List.mem_filter]
      simp [WebSocketManager.setSend, hBA]
  · intro hA hfull
    have hA1 : A ∉ r.clients := by
      rw [hcl, List.mem_filter]
      simp [sendCap, hfull]
    refine ⟨r, hr, hA1, ?_⟩
    intro es hes
    have wf1 := broadcast_WF m r L hwf hr
    obtain ⟨m2, h2⟩ := steps_total pm es r wf1 hes
    have hne : ∀ e ∈ es, e ≠ .hub (.register A) := fun e he => isRegister_ne e A (hes e he)
    obtain ⟨hc2, hh2⟩ := steps_outside pm es A r m2 wf1 hA1 hne h2
    exact ⟨m2, h2, hc2, hh2, fun hw => steps_outside_mem pm es A r m2 wf1 hA1 hne hw h2⟩

theorem C5_no_head_of_line_blocking_witness :
    (∃ r r1, twoClientHub.run none (.broadcast "hello") = .ok r ∧
        (twoClientHub.setSend 1 { buf := [], closed := (twoClientHub.mem 1).send.closed }).run
          none (.broadcast "hello") = .ok r1 ∧
        r1.mem 0 = r.mem 0 ∧ (0 ∈ r1.clients ↔ 0 ∈ r.clients)) ∧
    ∃ m1, twoClientHub.run none (.broadcast "hello") = .ok m1 ∧ 1 ∉ m1.clients ∧
      ∃ m2, WebSocketManager.steps none m1
          [.hub (.broadcast "again"), .hub (.unregister 1), .hub (.broadcast "more")] = .ok m2 ∧
        1 ∉ m2.clients ∧ m2.mem 1 = m1.mem 1 := by
  have h := C5_no_head_of_line_blocking none twoClientHub "hello" 1 0 twoClientHub_WF (by decide)
  refine ⟨h.1 [] (by decide), ?_⟩
  obtain ⟨m1, h1, hA, hrest⟩ := h.2 (by decide)
    (by simp [twoClientHub, stalledClient, fullQueue_length])
  obtain ⟨m2, h2, hA2, _, hmem⟩ := hrest
    [.hub (.broadcast "again"), .hub (.unregister 1), .hub (.broadcast "more")] (by decide)
  exact ⟨m1, h1, hA, m2, h2, hA2, hmem (by decide)⟩

theorem deliverAll_any_order (message : String) (m : WebSocketManager) (cs : List ClientId)
    (hwf : m.WF) (hnd : cs.Nodup) (hsame : ∀ c, c ∈ cs ↔ c ∈ m.clients) :
    WebSocketManager.deliverAll message cs m = m.broadcast message := by
  obtain ⟨m1, h1, hmem1, hcl1⟩ := deliverAll_ok message cs m hnd
    (fun c hc => hwf.2.1 c ((hsame c).mp hc))
  obtain ⟨m2, h2, hmem2, hcl2⟩ := broadcast_ok m message hwf
  rw [h1, h2]
  have hm : m1.mem = m2.mem := by
    funext d
    rw [hmem1 d, hmem2 d]
    by_cases hd : d ∈ cs
    · rw [if_pos hd, if_pos ((hsame d).mp hd)]
    · rw [if_neg hd, if_neg (fun h => hd ((hsame d).mpr h))]
  have hc : m1.clients = m2.clients := by
    rw [hcl1, hcl2]
    apply List.filter_congr
    intro d hd
    simp [(hsame d).mpr hd]
  cases m1
  cases m2
  simp only at hm hc
  rw [hm, hc]

theorem HandleWebSocket_registers (pm : PortManager) (m : WebSocketManager) (c : ClientId) :
    ∃ m1, m.HandleWebSocket (some pm) true c = .ok m1 ∧ c ∈ m1.clients ∧
      (m1.mem c).send.buf = [greeting, statusLine pm.GetCurrentPort] ∧
      ∀ d, d ≠ c → m1.mem d = m.mem d := by
  obtain ⟨m1, h1⟩ := register_ok (some pm)
    { m with mem := fun d => if d = c then Client.fresh else m.mem d } c
    (by simp [Client.fresh, Chan.make]) (by simp [Client.fresh, Chan.make, sendCap])
  obtain ⟨hcl, hoth, _, _, _, _, _, hb⟩ := register_inv _ _ _ _ h1
  refine ⟨m1, ?_, ?_, ?_, ?_⟩
  · simpa [WebSocketManager.HandleWebSocket, WebSocketManager.run] using h1
  · rw [hcl]
    by_cases hc : c ∈ m.clients <;> simp [hc]
  · rw [hb]
    simp [Client.fresh, Chan.make, registerLines]
  · intro d hd
    rw [hoth d hd]
    simp [hd]

/-! ## The TCP command reader -/

theorem isPrefixOf_append_drop : ∀ p s : List Char, p.isPrefixOf s = true →
    s = p ++ s.drop p.length := by
  intro p
  induction p with
  | nil =>
    intro s _
    simp
  | cons a p ih =>
    intro s h
    cases s with
    | nil => simp [List.isPrefixOf] at h
    | cons b s =>
      simp only [List.isPrefixOf, Bool.and_eq_true, beq_iff_eq] at h
      obtain ⟨hab, hp⟩ := h
      subst hab
      simpa using ih s hp

theorem TrimPrefix_spec (s p : String) (h : HasPrefix s p = true) :
    s = p ++ TrimPrefix s p := by
  unfold TrimPrefix
  rw [if_pos h]
  apply String.ext
  rw [String.data_append]
  exact isPrefixOf_append_drop p.data s.data h

theorem tcpLoop_data (lua : String → LuaRun) (clientAddr : String) (earlier : List String)
    (rest : List ReadResult) :
    tcpLoop lua clientAddr (earlier.map ReadResult.data ++ rest) =
      tcpLoop lua clientAddr (earlier.map ReadResult.data) ++ tcpLoop lua clientAddr rest := by
  induction earlier with
  | nil => simp [tcpLoop]
  | cons b earlier ih => simp [tcpLoop, ih]

theorem handleTCPConnection_data (lua : String → LuaRun) (clientAddr : String)
    (earlier : List String) (bytes : String) (later : List ReadResult) :
    handleTCPConnection lua clientAddr (earlier.map ReadResult.data ++ .data bytes :: later) =
      handleTCPConnection lua clientAddr (earlier.map ReadResult.data) ++
        tcpInput lua bytes ++ tcpLoop lua clientAddr later := by
  simp [handleTCPConnection, tcpLoop_data, tcpLoop]

theorem hubOps_append (a b : List Effect) : hubOps (a ++ b) = hubOps a ++ hubOps b := by
  induction a with
  | nil => rfl
  | cons e a ih => cases e <;> simp [hubOps, ih]

theorem hubOps_printed (printed : List String) :
    hubOps (printed.map BroadcastMessage) = printed.map HubOp.broadcast := by
  induction printed with
  | nil => rfl
  | cons p printed ih => simp [hubOps, BroadcastMessage, ih]

theorem executeLuaScript_effects (lua : String → LuaRun) (script : String) :
    (executeLuaScript lua script).1 =
      Effect.luaRun script :: (lua script).printed.map BroadcastMessage := by
  unfold executeLuaScript
  cases h : (lua script).err <;> simp [h]

theorem executeLuaScript_err (lua : String → LuaRun) (script : String) :
    (executeLuaScript lua script).2.2 = (lua script).err := by
  unfold executeLuaScript
  cases h : (lua script).err <;> simp [h]

theorem hubOps_executeLuaScript (lua : String → LuaRun) (script : String) :
    hubOps (executeLuaScript lua script).1 = (lua script).printed.map HubOp.broadcast := by
  rw [executeLuaScript_effects]
  simp [hubOps, hubOps_printed]

theorem tcpInput_broadcasts (lua : String → LuaRun) (bytes : String) :
    ∀ op ∈ hubOps (tcpInput lua bytes), ∃ message, op = HubOp.broadcast message := by
  intro op hop
  unfold tcpInput at hop
  by_cases hp : HasPrefix (TrimSpace bytes) "EXEC:" = true
  · simp only [hp, if_true, BroadcastMessage, hubOps, hubOps_append,
      hubOps_executeLuaScript] at hop
    cases he : (executeLuaScript lua (TrimPrefix (TrimSpace bytes) "EXEC:")).2.2 with
    | none =>
      simp only [he, hubOps, List.mem_cons, List.mem_append, List.mem_map] at hop
      rcases hop with h | ⟨p, _, h⟩ | h | h
      · exact ⟨_, h⟩
      · exact ⟨_, h.symm⟩
      · exact ⟨_, h⟩
      · simp at h
    | some e =>
      simp only [he, hubOps, List.mem_cons, List.mem_append, List.mem_map] at hop
      rcases hop with h | ⟨p, _, h⟩ | h | h
      · exact ⟨_, h⟩
      · exact ⟨_, h.symm⟩
      · exact ⟨_, h⟩
      · simp at h
  · simp only [hp, BroadcastMessage, hubOps, List.mem_cons] at hop
    rcases hop with h | h
    · exact ⟨_, h⟩
    · simp at h

theorem tcpLoop_broadcasts (lua : String → LuaRun) (clientAddr : String)
    (reads : List ReadResult) :
    ∀ op ∈ hubOps (tcpLoop lua clientAddr reads), ∃ message, op = HubOp.broadcast message := by
  induction reads with
  | nil =>
    intro op hop
    simp [tcpLoop, hubOps] at hop
  | cons r reads ih =>
    intro op hop
    cases r with
    | data bytes =>
      simp only [tcpLoop, hubOps_append, List.mem_append] at hop
      rcases hop with h | h
      · exact tcpInput_broadcasts lua bytes op h
      · exact ih op h
    | eof =>
      simp only [tcpLoop, BroadcastMessage, hubOps, List.mem_cons] at hop
      rcases hop with h | h
      · exact ⟨_, h⟩
      · simp at h
    | error msg =>
      simp only [tcpLoop, BroadcastMessage, hubOps, List.mem_cons] at hop
      rcases hop with h | h
      · exact ⟨_, h⟩
      · simp at h

theorem handleTCPConnection_broadcasts (lua : String → LuaRun) (clientAddr : String)
    (reads : List ReadResult) :
    ∀ op ∈ hubOps (handleTCPConnection lua clientAddr reads),
      ∃ message, op = HubOp.broadcast message := by
  intro op hop
  simp only [handleTCPConnection, BroadcastMessage, hubOps, List.mem_cons] at hop
  rcases hop with h | h
  · exact ⟨_, h⟩
  · exact tcpLoop_broadcasts lua clientAddr reads op h

/-- C7, as stated, fails: for a TCP connection that sends one line and closes, every request
the handler puts on the hub's channels is a broadcast, none a register, and serving them from
the initial hub leaves the live set empty, so the connection never becomes an endpoint. -/
theorem C7_counterexample :
    hubOps (handleTCPConnection sampleLua "10.0.0.7:5000" [.data "hello\n", .eof]) =
        [.broadcast "[System] TCP client connected: 10.0.0.7:5000", .broadcast "[TCP] hello",
          .broadcast "[System] TCP client disconnected: 10.0.0.7:5000"] ∧
      ∃ m, WebSocketManager.steps (some mainPortManager) NewWebSocketManager
          ((hubOps (handleTCPConnection sampleLua "10.0.0.7:5000"
            [.data "hello\n", .eof])).map Event.hub) = .ok m ∧
        m.clients = [] := by
  refine ⟨by decide, NewWebSocketManager, ?_, rfl⟩
  have h : hubOps (handleTCPConnection sampleLua "10.0.0.7:5000" [.data "hello\n", .eof]) =
      [.broadcast "[System] TCP client connected: 10.0.0.7:5000", .broadcast "[TCP] hello",
        .broadcast "[System] TCP client disconnected: 10.0.0.7:5000"] := by decide
  rw [h]
  rfl

/-- C7, amended: `handleTCPConnection` creates no client endpoint; every request it puts on the
hub's channels is a broadcast, never a register or an unregister.  Serving its requests in a
hub state kept by the control loop therefore succeeds and brings no endpoint into the live set:
an endpoint outside the set stays outside, with its client record untouched. -/
theorem C7_tcp_only_broadcasts (lua : String → LuaRun) (clientAddr : String)
    (reads : List ReadResult) :
    (∀ op ∈ hubOps (handleTCPConnection lua clientAddr reads),
      ∃ message, op = HubOp.broadcast message) ∧
    ∀ (pm : Option PortManager) (m : WebSocketManager), m.WF →
      ∃ m1, WebSocketManager.steps pm m
          ((hubOps (handleTCPConnection lua clientAddr reads)).map Event.hub) = .ok m1 ∧
        ∀ c, c ∉ m.clients → c ∉ m1.clients ∧ m1.mem c = m.mem c := by
  have hb := handleTCPConnection_broadcasts lua clientAddr reads
  refine ⟨hb, ?_⟩
  intro pm m hwf
  have hreg : ∀ e ∈ (hubOps (handleTCPConnection lua clientAddr reads)).map Event.hub,
      e.isRegister = false := by
    intro e he
    obtain ⟨op, hop, rfl⟩ := List.mem_map.mp he
    obtain ⟨message, rfl⟩ := hb op hop
    rfl
  have hwp : ∀ c, ∀ e ∈ (hubOps (handleTCPConnection lua clientAddr reads)).map Event.hub,
      e ≠ Event.writePump c := by
    intro c e he
    obtain ⟨op, _, rfl⟩ := List.mem_map.mp he
    simp
  obtain ⟨m1, h1⟩ := steps_total pm _ m hwf hreg
  refine ⟨m1, h1, ?_⟩
  intro c hc
  have hne : ∀ e ∈ (hubOps (handleTCPConnection lua clientAddr reads)).map Event.hub,
      e ≠ .hub (.register c) := fun e he => isRegister_ne e c (hreg e he)
  exact ⟨(steps_outside pm _ c m m1 hwf hc hne h1).1,
    steps_outside_mem pm _ c m m1 hwf hc hne (hwp c) h1⟩

theorem C7_tcp_only_broadcasts_witness :
    ∃ m1, WebSocketManager.steps none twoClientHub
        ((hubOps (handleTCPConnection sampleLua "10.0.0.7:5000"
          [.data "EXEC:print(1)\n", .data "hello\n", .eof])).map Event.hub) = .ok m1 ∧
      9 ∉ m1.clients ∧ m1.mem 9 = twoClientHub.mem 9 := by
  obtain ⟨m1, h1, h⟩ := (C7_tcp_only_broadcasts sampleLua "10.0.0.7:5000"
    [.data "EXEC:print(1)\n", .data "hello\n", .eof]).2 none twoClientHub twoClientHub_WF
  exact ⟨m1, h1, h 9 (by decide)⟩

/-- C8, as stated, fails: the line `hello` does not start with `EXEC:`, yet the handler puts a
broadcast carrying it on the hub's channel. -/
theorem C8_counterexample :
    HasPrefix (TrimSpace "hello\n") "EXEC:" = false ∧
      hubOps (tcpInput sampleLua "hello\n") = [.broadcast "[TCP] hello"] := by
  decide

/-- C8, amended: for an input whose trimmed text `d` does not start with `EXEC:`, what the
handler does for this input, between what it did for the earlier inputs and what it does for
the later reads, is exactly: put the broadcast `"[TCP] " + d` on the hub's channel, then write
`"Echo: " + d + "\n"` to the connection.  The interpreter is not run and nothing else goes to
the hub. -/
theorem C8_echo_only (lua : String → LuaRun) (clientAddr : String) (earlier : List String)
    (bytes : String) (later : List ReadResult)
    (h : HasPrefix (TrimSpace bytes) "EXEC:" = false) :
    handleTCPConnection lua clientAddr (earlier.map ReadResult.data ++ .data bytes :: later) =
        handleTCPConnection lua clientAddr (earlier.map ReadResult.data) ++
          [BroadcastMessage ("[TCP] " ++ TrimSpace bytes),
            Effect.connWrite ("Echo: " ++ TrimSpace bytes ++ "\n")] ++
          tcpLoop lua clientAddr later ∧
      connWrites (tcpInput lua bytes) = ["Echo: " ++ TrimSpace bytes ++ "\n"] ∧
      luaRuns (tcpInput lua bytes) = [] ∧
      hubOps (tcpInput lua bytes) = [.broadcast ("[TCP] " ++ TrimSpace bytes)] := by
  have hin : tcpInput lua bytes =
      [BroadcastMessage ("[TCP] " ++ TrimSpace bytes),
        Effect.connWrite ("Echo: " ++ TrimSpace bytes ++ "\n")] := by
    simp [tcpInput, h]
  refine ⟨?_, ?_, ?_, ?_⟩
  · rw [handleTCPConnection_data, hin]
  · rw [hin]
    rfl
  · rw [hin]
    rfl
  · rw [hin]
    rfl

theorem C8_echo_only_witness :
    connWrites (tcpInput sampleLua "  status \r\n") = ["Echo: status\n"] ∧
      luaRuns (tcpInput sampleLua "  status \r\n") = [] ∧
      hubOps (tcpInput sampleLua "  status \r\n") = [.broadcast "[TCP] status"] := by
  have h := (C8_echo_only sampleLua "10.0.0.7:5000" [] "  status \r\n" [] (by decide)).2
  have ht : TrimSpace "  status \r\n" = "status" := by decide
  rw [ht] at h
  exact h

/-- C9: for an input whose trimmed text `d` starts with `EXEC:`, the script handed to
`executeLuaScript` is `d` with one leading `EXEC:` removed.  What the handler does for this
input, between what it did for the earlier inputs and what it does for the later reads, is:
broadcast `"[TCP] " + d`, run the script (whose `print` calls are broadcast), then take exactly
one of two branches: on success with output `o`, write `"Success: " + o + "\n"` to the
connection and broadcast `"[Execution] " + o`; on failure with error `e`, write
`"Error: " + e + "\n"` to the connection and broadcast `"[Error] " + e`. -/
theorem C9_exec_command (lua : String → LuaRun) (clientAddr : String) (earlier : List String)
    (bytes : String) (later : List ReadResult)
    (h : HasPrefix (TrimSpace bytes) "EXEC:" = true) :
    ∃ script result,
      TrimSpace bytes = "EXEC:" ++ script ∧
      handleTCPConnection lua clientAddr (earlier.map ReadResult.data ++ .data bytes :: later) =
        handleTCPConnection lua clientAddr (earlier.map ReadResult.data) ++
          (BroadcastMessage ("[TCP] " ++ TrimSpace bytes) ::
            (executeLuaScript lua script).1 ++ result) ++
          tcpLoop lua clientAddr later ∧
      luaRuns (tcpInput lua bytes) = [script] ∧
      (((executeLuaScript lua script).2.2 = none ∧
          result =
            [Effect.connWrite ("Success: " ++ (executeLuaScript lua script).2.1 ++ "\n"),
              BroadcastMessage ("[Execution] " ++ (executeLuaScript lua script).2.1)]) ∨
        ∃ e, (executeLuaScript lua script).2.2 = some e ∧
          result =
            [Effect.connWrite ("Error: " ++ e ++ "\n"), BroadcastMessage ("[Error] " ++ e)]) ∧
      ¬ ((executeLuaScript lua script).2.2 = none ∧
          ∃ e, (executeLuaScript lua script).2.2 = some e) := by
  have hruns : ∀ printed : List String, luaRuns (printed.map BroadcastMessage) = [] := by
    intro printed
    induction printed with
    | nil => rfl
    | cons p printed ih => simpa [luaRuns, BroadcastMessage] using ih
  have hruns_append : ∀ a b : List Effect, luaRuns (a ++ b) = luaRuns a ++ luaRuns b := by
    intro a b
    induction a with
    | nil => rfl
    | cons e a ih => cases e <;> simp [luaRuns, ih]
  refine ⟨TrimPrefix (TrimSpace bytes) "EXEC:",
    (match (executeLuaScript lua (TrimPrefix (TrimSpace bytes) "EXEC:")).2.2 with
      | some e => [Effect.connWrite ("Error: " ++ e ++ "\n"), BroadcastMessage ("[Error] " ++ e)]
      | none =>
        [Effect.connWrite ("Success: " ++
            (executeLuaScript lua (TrimPrefix (TrimSpace bytes) "EXEC:")).2.1 ++ "\n"),
          BroadcastMessage ("[Execution] " ++
            (executeLuaScript lua (TrimPrefix (TrimSpace bytes) "EXEC:")).2.1)]),
    TrimPrefix_spec _ _ h, ?_, ?_, ?_, ?_⟩
  · rw [handleTCPConnection_data]
    simp [tcpInput, h]
  · have hin : tcpInput lua bytes =
        BroadcastMessage ("[TCP] " ++ TrimSpace bytes) ::
          ((executeLuaScript lua (TrimPrefix (TrimSpace bytes) "EXEC:")).1 ++
            (match (executeLuaScript lua (TrimPrefix (TrimSpace bytes) "EXEC:")).2.2 with
              | some e =>
                [Effect.connWrite ("Error: " ++ e ++ "\n"), BroadcastMessage ("[Error] " ++ e)]
              | none =>
                [Effect.connWrite ("Success: " ++
                    (executeLuaScript lua (TrimPrefix (TrimSpace bytes) "EXEC:")).2.1 ++ "\n"),
                  BroadcastMessage ("[Execution] " ++
                    (executeLuaScript lua (TrimPrefix (TrimSpace bytes) "EXEC:")).2.1)])) := by
      simp [tcpInput, h]
    rw [hin, executeLuaScript_effects]
    cases (executeLuaScript lua (TrimPrefix (TrimSpace bytes) "EXEC:")).2.2 <;>
      simp [luaRuns, BroadcastMessage, hruns_append, hruns]
  · cases he : (executeLuaScript lua (TrimPrefix (TrimSpace bytes) "EXEC:")).2.2 with
    | none => exact Or.inl ⟨rfl, rfl⟩
    | some e => exact Or.inr ⟨e, rfl, rfl⟩
  · rintro ⟨hn, e, hs⟩
    rw [hn] at hs
    exact Option.noConfusion hs

theorem C9_exec_command_witness :
    ∃ script result,
      TrimSpace " EXEC:print(1)\n" = "EXEC:" ++ script ∧
      handleTCPConnection sampleLua "10.0.0.7:5000" [.data " EXEC:print(1)\n", .eof] =
        handleTCPConnection sampleLua "10.0.0.7:5000" [] ++
          (BroadcastMessage ("[TCP] " ++ TrimSpace " EXEC:print(1)\n") ::
            (executeLuaScript sampleLua script).1 ++ result) ++
          tcpLoop sampleLua "10.0.0.7:5000" [.eof] ∧
      luaRuns (tcpInput sampleLua " EXEC:print(1)\n") = [script] := by
  obtain ⟨script, result, h1, h2, h3, _⟩ :=
    C9_exec_command sampleLua "10.0.0.7:5000" [] " EXEC:print(1)\n" [.eof] (by decide)
  exact ⟨script, result, h1, h2, h3⟩

/-! ## The token-gated handlers -/

/-- C10, as stated, fails: a `GET` request without an `Authorization` header to `handleExecute`
is answered with 405 (method not allowed), not with 401. -/
theorem C10_counterexample :
    (handleExecute sampleEnv sampleApp
        { Method := "GET", Authorization := "", Body := none }).response =
      { status := 405, body := .error "Method not allowed" } := by
  decide

/-- C10, amended: for a request whose `Authorization` header is empty or fails `ValidateToken`,
`HandleFeatures` answers 401 whatever the method, and `handleExecute`, `HandleInject` and
`HandleSpoofHWID` answer 401 when the method is `POST` and 405 otherwise; in every such case
the handler puts nothing on the hub's channels, runs no script, and leaves the session store,
the injector status, the feature map and the HWID state unchanged. -/
theorem C10_unauthorized_rejected (env : Env) (app : App) (method token : String)
    (hbad : token = "" ∨ app.authManager.ValidateToken env.now token = false) :
    (∀ body, (handleExecute env app ⟨method, token, body⟩).response.status =
          (if method = "POST" then 401 else 405) ∧
        (handleExecute env app ⟨method, token, body⟩).effects = [] ∧
        (handleExecute env app ⟨method, token, body⟩).app = app) ∧
    (∀ body, (HandleInject env app ⟨method, token, body⟩).response.status =
          (if method = "POST" then 401 else 405) ∧
        (HandleInject env app ⟨method, token, body⟩).effects = [] ∧
        (HandleInject env app ⟨method, token, body⟩).app = app) ∧
    (∀ body, (HandleSpoofHWID env app ⟨method, token, body⟩).response.status =
          (if method = "POST" then 401 else 405) ∧
        (HandleSpoofHWID env app ⟨method, token, body⟩).effects = [] ∧
        (HandleSpoofHWID env app ⟨method, token, body⟩).app = app) ∧
    (∀ body, (HandleFeatures env app ⟨method, token, body⟩).response.status = 401 ∧
        (HandleFeatures env app ⟨method, token, body⟩).effects = [] ∧
        (HandleFeatures env app ⟨method, token, body⟩).app = app) := by
  have hgate : ¬ token = "" → app.authManager.ValidateToken env.now token = false := by
    intro hne
    rcases hbad with h | h
    · exact absurd h hne
    · exact h
  refine ⟨?_, ?_, ?_, ?_⟩
  · intro body
    by_cases hm : method = "POST"
    · by_cases ht : token = ""
      · simp [handleExecute, httpError, hm, ht]
      · simp [handleExecute, httpError, hm, ht, hgate ht]
    · simp [handleExecute, httpError, hm]
  · intro body
    by_cases hm : method = "POST"
    · by_cases ht : token = ""
      · simp [HandleInject, httpError, hm, ht]
      · simp [HandleInject, httpError, hm, ht, hgate ht]
    · simp [HandleInject, httpError, hm]
  · intro body
    by_cases hm : method = "POST"
    · by_cases ht : token = ""
      · simp [HandleSpoofHWID, httpError, hm, ht]
      · simp [HandleSpoofHWID, httpError, hm, ht, hgate ht]
    · simp [HandleSpoofHWID, httpError, hm]
  · intro body
    by_cases ht : token = ""
    · simp [HandleFeatures, httpError, ht]
    · simp [HandleFeatures, httpError, ht, hgate ht]

theorem C10_unauthorized_rejected_witness :
    (HandleInject sampleEnv sampleApp ⟨"POST", "forged", some ⟨"Finder"⟩⟩).response.status = 401 ∧
      (HandleInject sampleEnv sampleApp ⟨"POST", "forged", some ⟨"Finder"⟩⟩).effects = [] ∧
      (HandleInject sampleEnv sampleApp ⟨"POST", "forged", some ⟨"Finder"⟩⟩).app = sampleApp :=
  (C10_unauthorized_rejected sampleEnv sampleApp "POST" "forged" (Or.inr (by decide))).2.1
    (some ⟨"Finder"⟩)

theorem HandleFeatures_authorized_sample :
    (HandleFeatures sampleEnv injectedApp
        ⟨"POST", "tok", some ⟨"anti_debug", true⟩⟩).response.status = 200 ∧
      (HandleFeatures sampleEnv injectedApp ⟨"POST", "tok", some ⟨"anti_debug", true⟩⟩).effects =
        [BroadcastMessage "[System] Feature 'anti_debug' enabled"] ∧
      (HandleFeatures sampleEnv injectedApp
        ⟨"POST", "tok", some ⟨"anti_debug", true⟩⟩).app.injectorStatus.features =
        [("hwid_spoofer", true), ("anti_debug", true)] := by
  decide

theorem handleExecute_authorized_sample :
    (handleExecute sampleEnv injectedApp ⟨"POST", "tok", some ⟨"!boom"⟩⟩).response =
        { status := 200, body := .execute "" "syntax error" } ∧
      (handleExecute sampleEnv injectedApp ⟨"POST", "tok", some ⟨"!boom"⟩⟩).effects =
        [Effect.luaRun "!boom", BroadcastMessage "[Error] syntax error"] := by
  decide

/-! ## Back-to-back broadcasts, closing discipline and the writer -/

theorem steps_deliveries (pm : Option PortManager) (es : List Event) :
    ∀ m : WebSocketManager, m.WF → (∀ e ∈ es, e.isDelivery = true) →
      (∀ c ∈ m.clients, (m.mem c).send.buf.length + (broadcastsOf es).length ≤ sendCap) →
      ∃ m1, WebSocketManager.steps pm m es = .ok m1 ∧ m1.clients = m.clients ∧
        ∀ c ∈ m.clients, m1.history c = m.history c ++ broadcastsOf es := by
  induction es with
  | nil =>
    intro m _ _ _
    exact ⟨m, rfl, rfl, fun c _ => by simp [broadcastsOf]⟩
  | cons e es ih =>
    intro m hwf hes hcap
    have hrest : ∀ e1 ∈ es, e1.isDelivery = true :=
      fun e1 he1 => hes e1 (List.mem_cons_of_mem e he1)
    have he := hes e (List.mem_cons_self e es)
    cases e with
    | hub op =>
      cases op with
      | register c => simp [Event.isDelivery] at he
      | unregister c => simp [Event.isDelivery] at he
      | broadcast message =>
        obtain ⟨m2, h2, hmem, hcl⟩ := broadcast_ok m message hwf
        have hlt : ∀ c ∈ m.clients, (m.mem c).send.buf.length < sendCap := by
          intro c hc
          have := hcap c hc
          simp only [broadcastsOf, List.length_cons] at this
          omega
        have hcl2 : m2.clients = m.clients := by
          rw [hcl, List.filter_eq_self]
          intro c hc
          simpa using hlt c hc
        have hwf2 := broadcast_WF m m2 message hwf h2
        have hcap2 : ∀ c ∈ m2.clients,
            (m2.mem c).send.buf.length + (broadcastsOf es).length ≤ sendCap := by
          intro c hc
          rw [hcl2] at hc
          have := hcap c hc
          simp only [broadcastsOf, List.length_cons] at this
          rw [hmem c, if_pos hc]
          simp [Client.offer, hlt c hc]
          omega
        obtain ⟨m1, h1, hc1, hh1⟩ := ih m2 hwf2 hrest hcap2
        refine ⟨m1, ?_, by rw [hc1, hcl2], ?_⟩
        · have hs : m.step pm (.hub (.broadcast message)) = .ok m2 := h2
          simp [WebSocketManager.steps, hs, h1, bind, Except.bind]
        · intro c hc
          have hh2 := (broadcast_history m m2 message hwf h2 c).2
          rw [if_pos ⟨hc, hlt c hc⟩] at hh2
          rw [hh1 c (by rw [hcl2]; exact hc), hh2]
          simp [broadcastsOf]
    | writePump d =>
      have hs : m.step pm (.writePump d) =
          .ok { m with mem := fun x => if x = d then (m.mem d).writePump else m.mem x } := rfl
      have hwf2 := step_WF pm m _ _ hwf hs
      have hcap2 : ∀ c ∈ m.clients,
          (((fun x => if x = d then (m.mem d).writePump else m.mem x) c).send.buf.length) +
            (broadcastsOf es).length ≤ sendCap := by
        intro c hc
        have := hcap c hc
        simp only [broadcastsOf] at this
        by_cases hcd : c = d
        · subst hcd
          have hl := (writePump_spec (m.mem c)).2.2
          simp only [if_pos]
          omega
        · simpa [hcd] using this
      obtain ⟨m1, h1, hc1, hh1⟩ := ih _ hwf2 hrest hcap2
      refine ⟨m1, ?_, hc1, ?_⟩
      · simp [WebSocketManager.steps, hs, h1, bind, Except.bind]
      · intro c hc
        rw [hh1 c hc]
        simp only [broadcastsOf]
        congr 1
        by_cases hcd : c = d
        · subst hcd
          simp [WebSocketManager.history, (writePump_spec (m.mem c)).1]
        · simp [WebSocketManager.history, hcd]

theorem registerLines_length (pm : Option PortManager) : (registerLines pm).length ≤ 2 := by
  cases pm <;> simp [registerLines]

theorem greetedHub_WF : greetedHub.WF := by
  refine ⟨by decide, ?_, ?_⟩
  · intro c _
    by_cases h : c = 0 ∨ c = 1 <;> simp [greetedHub, h, greetedClient, Client.fresh, Chan.make]
  · intro c
    by_cases h : c = 0 ∨ c = 1
    · simp [greetedHub, h, greetedClient, registerLines, sendCap]
    · simp [greetedHub, h, Client.fresh, Chan.make]

/-- C11: in a hub state kept by the control loop where every registered endpoint has exactly
its registration lines pending, any sequence of broadcasts and writer iterations containing 200
broadcasts runs to completion; the live set is unchanged, every registered endpoint keeps an
open queue, and what was ever queued for it (sent by its writer or still pending) grows by
exactly the 200 lines, each once, in broadcast order. -/
theorem C11_two_hundred_broadcasts (pm : Option PortManager) (m : WebSocketManager)
    (es : List Event) (hwf : m.WF)
    (hq : ∀ c ∈ m.clients, (m.mem c).send.buf = registerLines pm)
    (hes : ∀ e ∈ es, e.isDelivery = true) (hlen : (broadcastsOf es).length = 200) :
    ∃ m1, WebSocketManager.steps pm m es = .ok m1 ∧ m1.clients = m.clients ∧
      ∀ c ∈ m.clients, (m1.mem c).send.closed = false ∧
        m1.history c = m.history c ++ broadcastsOf es := by
  have hcap : ∀ c ∈ m.clients,
      (m.mem c).send.buf.length + (broadcastsOf es).length ≤ sendCap := by
    intro c hc
    have := registerLines_length pm
    rw [hq c hc, hlen]
    simp only [sendCap]
    omega
  obtain ⟨m1, h1, hcl, hh⟩ := steps_deliveries pm es m hwf hes hcap
  have hwf1 := steps_WF pm es m m1 hwf h1
  refine ⟨m1, h1, hcl, ?_⟩
  intro c hc
  exact ⟨hwf1.2.1 c (by rw [hcl]; exact hc), hh c hc⟩

set_option maxRecDepth 100000 in
theorem C11_two_hundred_broadcasts_witness :
    ∃ m1, WebSocketManager.steps (some mainPortManager) greetedHub tickTock = .ok m1 ∧
      m1.clients = [0, 1] ∧ (m1.mem 1).send.closed = false ∧
      m1.history 1 = registerLines (some mainPortManager) ++ broadcastsOf tickTock := by
  obtain ⟨m1, h1, hcl, h⟩ := C11_two_hundred_broadcasts (some mainPortManager) greetedHub
    tickTock greetedHub_WF
    (by
      intro c hc
      have hc2 : c = 0 ∨ c = 1 := by simpa [greetedHub] using hc
      simp [greetedHub, hc2, greetedClient])
    (by decide) (by decide)
  exact ⟨m1, h1, hcl, (h 1 (by decide)).1, (h 1 (by decide)).2⟩

theorem drain_payload (n : Nat) : ∀ (ch : Chan) (items : List String) (payload : String),
    (drain n ch items payload).2.2 =
      (ch.buf.take n).foldl (fun acc x => acc ++ "\n" ++ x) payload := by
  induction n with
  | zero =>
    intro ch items payload
    simp [drain]
  | succ n ih =>
    intro ch items payload
    cases hb : ch.buf with
    | nil => simp [drain, hb]
    | cons x rest =>
      simp only [drain, hb]
      rw [ih]
      simp

theorem intercalate_go_foldl (sep : String) (rest : List String) :
    ∀ acc : String, String.intercalate.go acc sep rest =
      rest.foldl (fun a x => a ++ sep ++ x) acc := by
  induction rest with
  | nil =>
    intro acc
    simp [String.intercalate.go]
  | cons x rest ih =>
    intro acc
    simp [String.intercalate.go, ih]

/-- C13: when the writer is running and its queue holds `m0 :: rest`, one pass of `writePump`
writes one text frame whose payload is `m0` followed, for each item of `rest` in queue order,
by a line break and that item (the queued lines joined by `"\n"`); the frame carries exactly
the items `m0 :: rest` in queue order, the queue is left empty and its closed flag is
unchanged. -/
theorem C13_writePump_coalesces (cl : Client) (m0 : String) (rest : List String)
    (halive : cl.writerDone = false) (hbuf : cl.send.buf = m0 :: rest) :
    cl.writePump.wire = cl.wire ++
        [Frame.text (m0 :: rest) (rest.foldl (fun acc x => acc ++ "\n" ++ x) m0)] ∧
      rest.foldl (fun acc x => acc ++ "\n" ++ x) m0 = String.intercalate "\n" (m0 :: rest) ∧
      cl.writePump.send.buf = [] ∧ cl.writePump.send.closed = cl.send.closed ∧
      cl.writePump.writerDone = false := by
  obtain ⟨h1, h2⟩ := drain_spec rest.length { cl.send with buf := rest } [m0] m0
  have h3 := drain_payload rest.length { cl.send with buf := rest } [m0] m0
  simp only [List.take_length] at h2 h3
  refine ⟨?_, ?_, ?_, ?_, ?_⟩
  · simp [Client.writePump, halive, hbuf, h2, h3]
  · simp [String.intercalate, intercalate_go_foldl]
  · simp [Client.writePump, halive, hbuf, h1]
  · simp [Client.writePump, halive, hbuf, h1]
  · simp [Client.writePump, halive, hbuf]

theorem C13_writePump_coalesces_witness :
    (Client.writePump
        { send := { buf := ["alpha", "beta", "gamma"], closed := false }, wire := [],
          writerDone := false }).wire =
      [Frame.text ["alpha", "beta", "gamma"] "alpha\nbeta\ngamma"] :=
  (C13_writePump_coalesces
    { send := { buf := ["alpha", "beta", "gamma"], closed := false }, wire := [],
      writerDone := false } "alpha" ["beta", "gamma"] rfl rfl).1

theorem fresh_writePump : Client.fresh.writePump = Client.fresh := rfl

theorem steps_fresh (pm : Option PortManager) (es : List Event) :
    ∀ m : WebSocketManager, m.WF → (registersOf es).Nodup →
      (∀ c ∈ registersOf es, m.mem c = Client.fresh ∧ c ∉ m.clients) →
      ∃ m1, WebSocketManager.steps pm m es = .ok m1 ∧ m1.WF := by
  induction es with
  | nil =>
    intro m hwf _ _
    exact ⟨m, rfl, hwf⟩
  | cons e es ih =>
    intro m hwf hnd hfresh
    by_cases hreg : e.isRegister = true
    · obtain ⟨c, rfl⟩ : ∃ c, e = .hub (.register c) := by
        cases e with
        | hub op =>
          cases op with
          | register c => exact ⟨c, rfl⟩
          | unregister c => simp [Event.isRegister] at hreg
          | broadcast message => simp [Event.isRegister] at hreg
        | writePump c => simp [Event.isRegister] at hreg
      simp only [registersOf, List.nodup_cons] at hnd
      have hc := hfresh c (by simp [registersOf])
      obtain ⟨m2, h2⟩ := register_ok pm m c (by rw [hc.1]; rfl) (by rw [hc.1]; decide)
      have hwf2 := register_WF pm m m2 c hwf h2
      obtain ⟨hcl, hoth, _⟩ := register_inv pm m m2 c h2
      have hfresh2 : ∀ d ∈ registersOf es, m2.mem d = Client.fresh ∧ d ∉ m2.clients := by
        intro d hd
        have hdc : d ≠ c := fun e => hnd.1 (e ▸ hd)
        have hd0 := hfresh d (by simp [registersOf, hd])
        refine ⟨by rw [hoth d hdc]; exact hd0.1, ?_⟩
        rw [hcl, if_neg hc.2]
        simp [hd0.2, hdc]
      obtain ⟨m1, h1, hwf1⟩ := ih m2 hwf2 hnd.2 hfresh2
      have hs : m.step pm (.hub (.register c)) = .ok m2 := h2
      exact ⟨m1, by simp [WebSocketManager.steps, hs, h1, bind, Except.bind], hwf1⟩
    · have hreg2 : e.isRegister = false := by simpa using hreg
      have hrs : registersOf (e :: es) = registersOf es := by
        cases e with
        | hub op =>
          cases op with
          | register c => simp [Event.isRegister] at hreg2
          | unregister c => rfl
          | broadcast message => rfl
        | writePump c => rfl
      rw [hrs] at hnd hfresh
      obtain ⟨m2, h2⟩ := step_total pm m e hwf hreg2
      have hwf2 := step_WF pm m m2 e hwf h2
      have hfresh2 : ∀ d ∈ registersOf es, m2.mem d = Client.fresh ∧ d ∉ m2.clients := by
        intro d hd
        have hd0 := hfresh d hd
        have hne := isRegister_ne e d hreg2
        refine ⟨?_, (step_outside pm m m2 e d hwf hd0.2 hne h2).1⟩
        by_cases hw : e = .writePump d
        · subst hw
          simp only [WebSocketManager.step, pure, Except.pure] at h2
          injection h2 with h2
          subst h2
          simp [hd0.1, fresh_writePump]
        · rw [step_outside_mem pm m m2 e d hwf hd0.2 hne hw h2]
          exact hd0.1
      obtain ⟨m1, h1, hwf1⟩ := ih m2 hwf2 hnd hfresh2
      exact ⟨m1, by simp [WebSocketManager.steps, h2, h1, bind, Except.bind], hwf1⟩

theorem steps_from_new (pm : Option PortManager) (es : List Event)
    (hnd : (registersOf es).Nodup) :
    ∃ m1, WebSocketManager.steps pm NewWebSocketManager es = .ok m1 ∧ m1.WF :=
  steps_fresh pm es NewWebSocketManager NewWebSocketManager_WF hnd
    (fun c _ => ⟨rfl, by simp [NewWebSocketManager]⟩)

theorem steps_append (pm : Option PortManager) (es1 es2 : List Event) :
    ∀ m : WebSocketManager, WebSocketManager.steps pm m (es1 ++ es2) =
      (WebSocketManager.steps pm m es1) >>= fun m1 => WebSocketManager.steps pm m1 es2 := by
  induction es1 with
  | nil =>
    intro m
    rfl
  | cons e es1 ih =>
    intro m
    cases hs : m.step pm e with
    | error f => simp [WebSocketManager.steps, hs, bind, Except.bind]
    | ok m2 =>
      simp only [List.cons_append, WebSocketManager.steps, hs, bind, Except.bind]
      exact ih m2

theorem registersOf_append (es1 es2 : List Event) :
    registersOf (es1 ++ es2) = registersOf es1 ++ registersOf es2 := by
  induction es1 with
  | nil => rfl
  | cons e es1 ih =>
    cases e with
    | hub op => cases op <;> simp [registersOf, ih]
    | writePump c => simp [registersOf, ih]

theorem steps_keeps_fresh (pm : Option PortManager) (es : List Event) (c : ClientId) :
    ∀ m m1 : WebSocketManager, m.WF → c ∉ registersOf es → m.mem c = Client.fresh →
      c ∉ m.clients → WebSocketManager.steps pm m es = .ok m1 →
      m1.mem c = Client.fresh ∧ c ∉ m1.clients := by
  induction es with
  | nil =>
    intro m m1 _ _ hf hc h
    simp only [WebSocketManager.steps, pure, Except.pure] at h
    injection h with h
    subst h
    exact ⟨hf, hc⟩
  | cons e es ih =>
    intro m m1 hwf hreg hf hc h
    cases hs : m.step pm e with
    | error f => simp [WebSocketManager.steps, hs, bind, Except.bind] at h
    | ok m2 =>
      simp only [WebSocketManager.steps, hs, bind, Except.bind] at h
      have hne : e ≠ .hub (.register c) := by
        intro he
        subst he
        simp [registersOf] at hreg
      have hreg2 : c ∉ registersOf es := by
        intro hin
        apply hreg
        cases e with
        | hub op => cases op <;> simp [registersOf, hin]
        | writePump d => simp [registersOf, hin]
      have hc2 := (step_outside pm m m2 e c hwf hc hne hs).1
      have hf2 : m2.mem c = Client.fresh := by
        by_cases hw : e = .writePump c
        · subst hw
          simp only [WebSocketManager.step, pure, Except.pure] at hs
          injection hs with hs
          subst hs
          simp [hf, fresh_writePump]
        · rw [step_outside_mem pm m m2 e c hwf hc hne hw hs]
          exact hf
      exact ih m2 m1 (step_WF pm m m2 e hwf hs) hreg2 hf2 hc2 h

theorem step_closing (pm : Option PortManager) (m m1 : WebSocketManager) (e : Event)
    (hwf : m.WF) (h : m.step pm e = .ok m1) (c : ClientId) :
    ((m.mem c).send.closed = true →
        (m1.mem c).send.closed = true ∧ m1.history c = m.history c ∧
          (m1.mem c).send.buf.length ≤ (m.mem c).send.buf.length) ∧
      ((m.mem c).send.closed = false → (m1.mem c).send.closed = true →
        c ∈ m.clients ∧ c ∉ m1.clients) := by
  refine ⟨?_, ?_⟩
  · intro hclosed
    have hc : c ∉ m.clients := by
      intro hin
      have := hwf.2.1 c hin
      rw [hclosed] at this
      exact Bool.noConfusion this
    have hne : e ≠ .hub (.register c) := by
      intro he
      subst he
      have := (register_inv pm m m1 c h).2.2.2.2.1
      rw [hclosed] at this
      exact Bool.noConfusion this
    refine ⟨?_, (step_outside pm m m1 e c hwf hc hne h).2, ?_⟩
    · by_cases hw : e = .writePump c
      · subst hw
        simp only [WebSocketManager.step, pure, Except.pure] at h
        injection h with h
        subst h
        simp [(writePump_spec (m.mem c)).2.1, hclosed]
      · rw [step_outside_mem pm m m1 e c hwf hc hne hw h]
        exact hclosed
    · by_cases hw : e = .writePump c
      · subst hw
        simp only [WebSocketManager.step, pure, Except.pure] at h
        injection h with h
        subst h
        simpa using (writePump_spec (m.mem c)).2.2
      · rw [step_outside_mem pm m m1 e c hwf hc hne hw h]
  · intro hopen hclosed1
    cases e with
    | hub op =>
      cases op with
      | register d =>
        obtain ⟨_, hoth, _, _, _, hopen1, _⟩ := register_inv pm m m1 d h
        by_cases hcd : c = d
        · subst hcd
          rw [hopen1] at hclosed1
          exact Bool.noConfusion hclosed1
        · rw [hoth c hcd, hopen] at hclosed1
          exact Bool.noConfusion hclosed1
      | unregister d =>
        obtain ⟨hcl, hoth, _, _, _, hsame, _⟩ := unregister_inv m m1 d h
        by_cases hcd : c = d
        · subst hcd
          by_cases hin : c ∈ m.clients
          · refine ⟨hin, ?_⟩
            rw [hcl, List.mem_filter]
            simp
          · rw [hsame hin, hopen] at hclosed1
            exact Bool.noConfusion hclosed1
        · rw [hoth c hcd, hopen] at hclosed1
          exact Bool.noConfusion hclosed1
      | broadcast message =>
        obtain ⟨m2, h2, hmem, hcl⟩ := broadcast_ok m message hwf
        have h' : m.broadcast message = .ok m1 := h
        rw [h2] at h'
        injection h' with h'
        subst h'
        by_cases hin : c ∈ m.clients
        · refine ⟨hin, ?_⟩
          rw [hmem c, if_pos hin] at hclosed1
          by_cases hlt : (m.mem c).send.buf.length < sendCap
          · simp [Client.offer, hlt, hopen] at hclosed1
          · rw [hcl, List.mem_filter]
            simp [hlt]
        · rw [hmem c, if_neg hin, hopen] at hclosed1
          exact Bool.noConfusion hclosed1
    | writePump d =>
      simp only [WebSocketManager.step, pure, Except.pure] at h
      injection h with h
      subst h
      by_cases hcd : c = d
      · subst hcd
        simp only [if_pos] at hclosed1
        rw [(writePump_spec (m.mem c)).2.1, hopen] at hclosed1
        exact Bool.noConfusion hclosed1
      · simp only [if_neg hcd] at hclosed1
        rw [hopen] at hclosed1
        exact Bool.noConfusion hclosed1

theorem steps_split_last (pm : Option PortManager) (es : List Event) (e : Event)
    (m m1 : WebSocketManager) (h : WebSocketManager.steps pm m (es ++ [e]) = .ok m1) :
    ∃ m0, WebSocketManager.steps pm m es = .ok m0 ∧ m0.step pm e = .ok m1 := by
  rw [steps_append] at h
  cases h0 : WebSocketManager.steps pm m es with
  | error f => simp [h0, bind, Except.bind] at h
  | ok m0 =>
    refine ⟨m0, rfl, ?_⟩
    simp only [h0, bind, Except.bind] at h
    cases hs : m0.step pm e with
    | error f => simp [WebSocketManager.steps, hs, bind, Except.bind] at h
    | ok m2 =>
      simp only [WebSocketManager.steps, hs, bind, Except.bind, pure, Except.pure] at h
      exact h

/-- C12: along every run of the control loop from the initial hub in which no endpoint is
registered twice, every step completes, so no queue is closed while already closed and no line
is sent on a closed queue.  In each step, a queue that is closed stays closed with nothing
added to what was ever queued on it, and a queue that goes from open to closed belongs to an
endpoint that was in the live set before the step and is outside it after; hence each queue is
closed at most once. -/
theorem C12_closed_at_most_once (pm : Option PortManager) (es : List Event) (e : Event)
    (hnd : (registersOf (es ++ [e])).Nodup) :
    ∃ m0 m1, WebSocketManager.steps pm NewWebSocketManager es = .ok m0 ∧
      m0.step pm e = .ok m1 ∧
      ∀ c,
        ((m0.mem c).send.closed = true →
          (m1.mem c).send.closed = true ∧ m1.history c = m0.history c ∧
            (m1.mem c).send.buf.length ≤ (m0.mem c).send.buf.length) ∧
        ((m0.mem c).send.closed = false → (m1.mem c).send.closed = true →
          c ∈ m0.clients ∧ c ∉ m1.clients) := by
  obtain ⟨m1, h1, _⟩ := steps_from_new pm (es ++ [e]) hnd
  obtain ⟨m0, h0, hs⟩ := steps_split_last pm es e NewWebSocketManager m1 h1
  have hwf0 := steps_WF pm es NewWebSocketManager m0 NewWebSocketManager_WF h0
  exact ⟨m0, m1, h0, hs, fun c => step_closing pm m0 m1 e hwf0 hs c⟩

set_option maxRecDepth 100000 in
theorem C12_closed_at_most_once_witness :
    ∃ m0 m1, WebSocketManager.steps (some mainPortManager) NewWebSocketManager
        (stallEvents ++ [.hub (.broadcast "late")]) = .ok m0 ∧
      m0.step (some mainPortManager) (.hub (.unregister 0)) = .ok m1 ∧
      ((m0.mem 0).send.closed = true → (m1.mem 0).send.closed = true ∧
        m1.history 0 = m0.history 0) := by
  obtain ⟨m0, m1, h0, h1, h⟩ := C12_closed_at_most_once (some mainPortManager)
    (stallEvents ++ [.hub (.broadcast "late")]) (.hub (.unregister 0)) (by decide)
  exact ⟨m0, m1, h0, h1, fun hc => ⟨((h 0).1 hc).1, ((h 0).1 hc).2.1⟩⟩

theorem register_full_blocks (pm : Option PortManager) (m : WebSocketManager) (c : ClientId)
    (hopen : (m.mem c).send.closed = false) (hfull : (m.mem c).send.buf.length = sendCap) :
    m.run pm (.register c) = .error .blocked := by
  simp [WebSocketManager.run, WebSocketManager.register, WebSocketManager.insertClient,
    Chan.send, hopen, hfull, bind, Except.bind]

theorem register_closed_panics (pm : Option PortManager) (m : WebSocketManager) (c : ClientId)
    (hclosed : (m.mem c).send.closed = true) :
    m.run pm (.register c) = .error .sendOnClosed := by
  simp [WebSocketManager.run, WebSocketManager.register, WebSocketManager.insertClient,
    Chan.send, hclosed, bind, Except.bind]

/-- C15: the register step sends with blocking sends: on a full open queue it cannot proceed
and on a closed queue it panics.  For a client built by `HandleWebSocket` the step completes
with both lines queued; and along every run from the initial hub in which no endpoint is
registered twice, each client is still as `HandleWebSocket` built it when its registration is
served, the registration completes with exactly the registration lines on the queue, and the
whole run completes, so the control loop always reaches its next operation. -/
theorem C15_register_never_blocks (pm : Option PortManager) :
    (∀ (m : WebSocketManager) (c : ClientId),
      ((m.mem c).send.closed = false → (m.mem c).send.buf.length = 256 →
        m.run pm (.register c) = .error .blocked) ∧
      ((m.mem c).send.closed = true → m.run pm (.register c) = .error .sendOnClosed) ∧
      ∃ m1, m.HandleWebSocket pm true c = .ok m1 ∧ (m1.mem c).send.buf = registerLines pm ∧
        (m1.mem c).send.closed = false ∧ c ∈ m1.clients) ∧
    (∀ (es : List Event) (c : ClientId), (registersOf (es ++ [.hub (.register c)])).Nodup →
      ∃ m0 m1, WebSocketManager.steps pm NewWebSocketManager es = .ok m0 ∧
        m0.mem c = Client.fresh ∧ m0.run pm (.register c) = .ok m1 ∧
        (m1.mem c).send.buf = registerLines pm ∧ (m1.mem c).send.closed = false ∧
        c ∈ m1.clients) ∧
    (∀ es : List Event, (registersOf es).Nodup →
      ∃ m1, WebSocketManager.steps pm NewWebSocketManager es = .ok m1) := by
  have hreg : ∀ (m m1 : WebSocketManager) (c : ClientId), m.mem c = Client.fresh →
      m.register pm c = .ok m1 →
      (m1.mem c).send.buf = registerLines pm ∧ (m1.mem c).send.closed = false ∧
        c ∈ m1.clients := by
    intro m m1 c hf h
    obtain ⟨hcl, _, _, _, _, hopen1, _, hb⟩ := register_inv pm m m1 c h
    refine ⟨by rw [hb, hf]; rfl, hopen1, ?_⟩
    rw [hcl]
    by_cases hc : c ∈ m.clients <;> simp [hc]
  refine ⟨?_, ?_, ?_⟩
  · intro m c
    refine ⟨fun ho hf => register_full_blocks pm m c ho hf,
      fun hc => register_closed_panics pm m c hc, ?_⟩
    obtain ⟨m1, h1⟩ := register_ok pm
      { m with mem := fun d => if d = c then Client.fresh else m.mem d } c
      (by simp [Client.fresh, Chan.make]) (by simp [Client.fresh, Chan.make, sendCap])
    obtain ⟨hb, ho, hc⟩ := hreg _ m1 c (by simp) h1
    exact ⟨m1, by simpa [WebSocketManager.HandleWebSocket, WebSocketManager.run] using h1,
      hb, ho, hc⟩
  · intro es c hnd
    obtain ⟨m1, h1, _⟩ := steps_from_new pm (es ++ [.hub (.register c)]) hnd
    obtain ⟨m0, h0, hs⟩ := steps_split_last pm es _ NewWebSocketManager m1 h1
    have hnot : c ∉ registersOf es := by
      rw [registersOf_append] at hnd
      intro hin
      have := List.disjoint_of_nodup_append hnd hin
      simp [registersOf] at this
    obtain ⟨hf, _⟩ := steps_keeps_fresh pm es c NewWebSocketManager m0 NewWebSocketManager_WF
      hnot rfl (by simp [NewWebSocketManager]) h0
    obtain ⟨hb, ho, hc⟩ := hreg m0 m1 c hf hs
    exact ⟨m0, m1, h0, hf, hs, hb, ho, hc⟩
  · intro es hnd
    obtain ⟨m1, h1, _⟩ := steps_from_new pm es hnd
    exact ⟨m1, h1⟩

theorem C15_register_never_blocks_witness :
    ∃ m0 m1, WebSocketManager.steps (some mainPortManager) NewWebSocketManager
        [.hub (.register 0), .hub (.broadcast "x"), .hub (.unregister 0)] = .ok m0 ∧
      m0.mem 1 = Client.fresh ∧ m0.run (some mainPortManager) (.register 1) = .ok m1 ∧
      (m1.mem 1).send.buf = registerLines (some mainPortManager) := by
  obtain ⟨m0, m1, h0, hf, h1, hb, _⟩ := (C15_register_never_blocks (some mainPortManager)).2.1
    [.hub (.register 0), .hub (.broadcast "x"), .hub (.unregister 0)] 1 (by decide)
  exact ⟨m0, m1, h0, hf, h1, hb⟩

/-! ## The session gate -/

theorem lookup_cons_self {β : Type} (m : StrMap β) (k : String) (v : β) :
    List.lookup k ((k, v) :: m) = some v := by
  simp [List.lookup]

theorem lookup_cons_ne {β : Type} (m : StrMap β) (k k1 : String) (v : β) (h : k1 ≠ k) :
    List.lookup k1 ((k, v) :: m) = List.lookup k1 m := by
  have hb : (k1 == k) = false := by simpa using h
  simp only [List.lookup, hb]

theorem StrMap.lookup_set {β : Type} (m : StrMap β) (k : String) (v : β) (k1 : String) :
    List.lookup k1 (StrMap.set m k v) = if k1 = k then some v else List.lookup k1 m := by
  induction m with
  | nil =>
    by_cases h : k1 = k
    · subst h
      simp only [StrMap.set, if_true]
      exact lookup_cons_self _ _ _
    · simp only [StrMap.set, if_neg h]
      rw [lookup_cons_ne _ _ _ _ h]
  | cons p m ih =>
    obtain ⟨k2, v2⟩ := p
    by_cases h2 : k2 = k
    · subst h2
      by_cases h : k1 = k2
      · subst h
        simp only [StrMap.set, if_true]
        exact lookup_cons_self _ _ _
      · simp only [StrMap.set, if_true, if_neg h]
        rw [lookup_cons_ne _ _ _ _ h, lookup_cons_ne _ _ _ _ h]
    · simp only [StrMap.set, if_neg h2]
      by_cases h4 : k1 = k2
      · subst h4
        have h5 : ¬ k1 = k := h2
        rw [lookup_cons_self, if_neg h5, lookup_cons_self]
      · rw [lookup_cons_ne _ _ _ _ h4, ih, lookup_cons_ne _ _ _ _ h4]

theorem StrMap.mem_set {β : Type} (m : StrMap β) (k : String) (v : β) (p : String × β)
    (h : p ∈ StrMap.set m k v) : p = (k, v) ∨ p ∈ m := by
  induction m with
  | nil =>
    simp only [StrMap.set, List.mem_singleton] at h
    exact Or.inl h
  | cons q m ih =>
    obtain ⟨k2, v2⟩ := q
    by_cases h2 : k2 = k
    · simp only [StrMap.set, h2, if_true, List.mem_cons] at h
      rcases h with h | h
      · exact Or.inl h
      · exact Or.inr (List.mem_cons_of_mem _ h)
    · simp only [StrMap.set, h2, if_false, List.mem_cons] at h
      rcases h with h | h
      · exact Or.inr (h ▸ List.mem_cons_self _ _)
      · rcases ih h with h | h
        · exact Or.inl h
        · exact Or.inr (List.mem_cons_of_mem _ h)

theorem StrMap.mem_of_lookup {β : Type} (m : StrMap β) (k : String) (v : β)
    (h : List.lookup k m = some v) : (k, v) ∈ m := by
  induction m with
  | nil => simp [List.lookup] at h
  | cons q m ih =>
    obtain ⟨k2, v2⟩ := q
    by_cases h2 : k = k2
    · subst h2
      rw [lookup_cons_self] at h
      injection h with h
      subst h
      exact List.mem_cons_self _ _
    · rw [lookup_cons_ne _ _ _ _ h2] at h
      exact List.mem_cons_of_mem _ (ih h)

theorem owned_set (am : AuthManager) (key token : String) (user : User) (expires : Time)
    (h : am.SessionsOwned) :
    AuthManager.SessionsOwned
      { users := am.users.set key user,
        sessions := am.sessions.set token
          { Token := token, UserID := key, ExpiresAt := expires } } := by
  intro p hp
  rcases StrMap.mem_set _ _ _ _ hp with hp | hp
  · subst hp
    simp [StrMap.lookup_set]
  · have := h p hp
    simp only [StrMap.lookup_set]
    by_cases hk : p.2.UserID = key
    · simp [hk]
    · simpa [hk] using this

theorem HandleRegister_owned (env : AuthEnv) (am : AuthManager) (token : String)
    (t1 t2 t3 : Time) (r : Request RegisterRequest) (h : am.SessionsOwned) :
    (am.HandleRegister env token t1 t2 t3 r).am.SessionsOwned := by
  unfold AuthManager.HandleRegister
  split
  · exact h
  · split
    · exact h
    · split_ifs
      all_goals first
        | exact h
        | exact owned_set am _ _ _ _ h

theorem HandleLogin_owned (env : AuthEnv) (am : AuthManager) (token : String)
    (t1 t2 : Time) (r : Request LoginRequest) (h : am.SessionsOwned) :
    (am.HandleLogin env token t1 t2 r).am.SessionsOwned := by
  unfold AuthManager.HandleLogin
  split
  · exact h
  · split
    · exact h
    · split
      · exact h
      · split_ifs
        · exact h
        · exact owned_set am _ _ _ _ h

theorem serveAll_owned (env : AuthEnv) (calls : List AuthCall) :
    ∀ am : AuthManager, am.SessionsOwned → (am.serveAll env calls).SessionsOwned := by
  induction calls with
  | nil =>
    intro am h
    exact h
  | cons call calls ih =>
    intro am h
    simp only [AuthManager.serveAll, List.foldl_cons]
    apply ih
    cases call with
    | register token t1 t2 t3 r => exact HandleRegister_owned env am token t1 t2 t3 r h
    | login token t1 t2 r => exact HandleLogin_owned env am token t1 t2 r h

/-- C14: in every store reached from `NewAuthManager` by serving registration and login
requests, every stored session names the key of a stored user, and at every instant and for
every token `ValidateToken` returns true exactly when `GetUserByToken` returns a user: a token
that validates resolves to an identity, and an unknown or expired token does neither. -/
theorem C14_validate_iff_resolves (env : AuthEnv) (calls : List AuthCall) (now : Time)
    (t : String) :
    (∀ p ∈ (NewAuthManager.serveAll env calls).sessions,
        ((NewAuthManager.serveAll env calls).users.lookup p.2.UserID).isSome = true) ∧
      ((NewAuthManager.serveAll env calls).ValidateToken now t = true ↔
        ((NewAuthManager.serveAll env calls).GetUserByToken now t).isSome = true) ∧
      ((NewAuthManager.serveAll env calls).sessions.lookup t = none →
        (NewAuthManager.serveAll env calls).ValidateToken now t = false ∧
          (NewAuthManager.serveAll env calls).GetUserByToken now t = none) ∧
      (∀ s, (NewAuthManager.serveAll env calls).sessions.lookup t = some s →
        now > s.ExpiresAt →
        (NewAuthManager.serveAll env calls).ValidateToken now t = false ∧
          (NewAuthManager.serveAll env calls).GetUserByToken now t = none) := by
  have hown : (NewAuthManager.serveAll env calls).SessionsOwned :=
    serveAll_owned env calls NewAuthManager (fun p hp => by simp [NewAuthManager] at hp)
  refine ⟨hown, ?_, ?_, ?_⟩
  · unfold AuthManager.ValidateToken AuthManager.GetUserByToken
    cases hs : List.lookup t (NewAuthManager.serveAll env calls).sessions with
    | none => simp
    | some s =>
      by_cases hexp : now > s.ExpiresAt
      · simp [hexp]
      · have := hown (t, s) (StrMap.mem_of_lookup _ _ _ hs)
        simp [hexp, this]
  · intro hs
    simp [AuthManager.ValidateToken, AuthManager.GetUserByToken, hs]
  · intro s hs hexp
    simp [AuthManager.ValidateToken, AuthManager.GetUserByToken, hs, hexp]

theorem sampleCalls_store :
    (NewAuthManager.serveAll sampleAuthEnv sampleCalls).sessions =
        [("tok1", ⟨"tok1", "alice", 100 + day⟩), ("tok2", ⟨"tok2", "alice", 500 + day⟩)] ∧
      (NewAuthManager.serveAll sampleAuthEnv sampleCalls).users =
        [("alice", ⟨"alice", "alice@example.com", "sha256:correct horse", 100, 500⟩)] := by
  decide

theorem C14_validate_iff_resolves_witness :
    ((NewAuthManager.serveAll sampleAuthEnv sampleCalls).ValidateToken 1000 "tok3" = false ∧
        (NewAuthManager.serveAll sampleAuthEnv sampleCalls).GetUserByToken 1000 "tok3" = none) ∧
      ((NewAuthManager.serveAll sampleAuthEnv sampleCalls).GetUserByToken 1000 "tok2").isSome =
        true := by
  have h := C14_validate_iff_resolves sampleAuthEnv sampleCalls 1000
  refine ⟨(h "tok3").2.2.1 ?_, (h "tok2").2.1.mp ?_⟩
  · rw [sampleCalls_store.1]
    decide
  · unfold AuthManager.ValidateToken
    rw [sampleCalls_store.1]
    decide

end Canda
